import Mathlib

/-!
Shallow embedding of the `prview` repository core
(`internal/git/diff.go`, `internal/git/workspace.go`,
`internal/watcher/watcher.go`) and proofs about it.

Go strings are modelled as `List Char`; the Go standard-library string
helpers used by the source (`strings.HasPrefix`, `strings.SplitN` with
limit 2, `strings.Split`, `strings.Fields`, `strings.TrimSpace`,
`strings.TrimPrefix`, `strconv.Atoi`) are defined below by recursion on
the character list, following the documented Go semantics.
-/

namespace Prview

/-- `strings.HasPrefix s p` (byte-wise in Go; identical on the character
level for valid UTF-8 text). -/
def startsWithL : List Char → List Char → Bool
  | _, [] => true
  | [], _ :: _ => false
  | c :: s, p :: ps => c == p && startsWithL s ps

/-- `strings.TrimPrefix s p`: drop `p` from the front when present. -/
def trimPrefixL (s p : List Char) : List Char :=
  if startsWithL s p then s.drop p.length else s

/-- `strings.Split` generalised: split at every character satisfying `p`
(Go splits on every occurrence of a one-character separator). -/
def splitWhen (p : Char → Bool) : List Char → List (List Char)
  | [] => [[]]
  | c :: rest =>
    if p c then [] :: splitWhen p rest
    else
      match splitWhen p rest with
      | l :: ls => (c :: l) :: ls
      | [] => [[c]]

/-- Split `s` at the first occurrence of `sep` (nonempty in every use
below), returning the parts before and after it. -/
def splitFirst : List Char → List Char → Option (List Char × List Char)
  | [], _ => none
  | c :: rest, sep =>
    if startsWithL (c :: rest) sep then some ([], (c :: rest).drop sep.length)
    else
      match splitFirst rest sep with
      | some (pre, post) => some (c :: pre, post)
      | none => none

/-- `strings.SplitN s sep 2`: at most two parts, cut at the first
occurrence of `sep`. -/
def splitN2 (s sep : List Char) : List (List Char) :=
  match splitFirst s sep with
  | some (a, b) => [a, b]
  | none => [s]

/-- `unicode.IsSpace` (the code points Go treats as white space). -/
def goIsSpace (c : Char) : Bool :=
  [9, 10, 11, 12, 13, 32, 0x85, 0xA0, 0x1680,
   0x2000, 0x2001, 0x2002, 0x2003, 0x2004, 0x2005, 0x2006, 0x2007,
   0x2008, 0x2009, 0x200A, 0x2028, 0x2029, 0x202F, 0x205F, 0x3000].contains c.toNat

/-- `strings.TrimSpace`. -/
def trimSpace (s : List Char) : List Char :=
  ((s.dropWhile goIsSpace).reverse.dropWhile goIsSpace).reverse

/-- `strings.Fields`: the maximal runs of non-space characters. -/
def goFields (s : List Char) : List (List Char) :=
  (splitWhen goIsSpace s).filter (fun l => !l.isEmpty)

/-- Numeric value of a digit string, most significant digit first. -/
def digitsVal (l : List Char) : Nat :=
  l.foldl (fun n c => n * 10 + (c.toNat - 48)) 0

/-- Whether every character is an ASCII decimal digit. -/
def allDigits (l : List Char) : Bool :=
  l.all (fun c => c.isDigit)

def maxInt64 : Int := 2 ^ 63 - 1
def minInt64 : Int := -(2 ^ 63)

/-- The magnitude part of `strconv.Atoi` after the optional sign: 0 on a
syntax error (empty or non-digit input), otherwise the value clamped to
the 64-bit signed range (Go returns the clamped value together with an
error both call sites in `diff.go` discard). -/
def goAtoiMag (neg : Bool) (digits : List Char) : Int :=
  if digits.isEmpty || !allDigits digits then 0
  else
    let v : Int := if neg then -(digitsVal digits : Int) else (digitsVal digits : Int)
    if v > maxInt64 then maxInt64 else if v < minInt64 then minInt64 else v

/-- `strconv.Atoi` with the error discarded: an optional leading sign,
then the digit magnitude. -/
def goAtoi : List Char → Int
  | [] => goAtoiMag false []
  | c :: rest =>
    if c = '+' then goAtoiMag false rest
    else if c = '-' then goAtoiMag true rest
    else goAtoiMag false (c :: rest)


/-! ## Data model of `internal/git/diff.go` -/

/-- `Line` of `diff.go`: a single line in a diff hunk; `Type` is one of
"add", "del", "context". -/
structure Line where
  «Type» : String
  Content : List Char
deriving DecidableEq, Repr

/-- `Hunk` of `diff.go`. Counters are Go `int`s, modelled as `Int`. -/
structure Hunk where
  OldStart : Int
  OldLines : Int
  NewStart : Int
  NewLines : Int
  Header : List Char
  Lines : List Line
deriving DecidableEq, Repr

/-- `FileDiff` of `diff.go`. -/
structure FileDiff where
  OldName : List Char
  NewName : List Char
  Status : String
  Additions : Int
  Deletions : Int
  IsBinary : Bool
  Hunks : List Hunk
deriving DecidableEq, Repr

/-- `DiffResult` of `diff.go`. -/
structure DiffResult where
  Files : List FileDiff
  Additions : Int
  Deletions : Int
  RawDiff : List Char
deriving DecidableEq, Repr

/-- `parseRange` of `diff.go`, returning the `(start, lines)` pair the Go
function writes through its two out-pointers. -/
def parseRange (s : List Char) : Int × Int :=
  match splitN2 s (",".data) with
  | [a, b] => (goAtoi a, goAtoi b)
  | [a] => (goAtoi a, 1)
  | _ => (0, 1)

/-- The body of `parseHunkHeader`'s range loop: a field starting with
`-` fills the old range, one starting with `+` fills the new range. -/
def applyRange (h : Hunk) (r : List Char) : Hunk :=
  if startsWithL r ("-".data) then
    let p := parseRange (r.drop 1)
    { h with OldStart := p.1, OldLines := p.2 }
  else if startsWithL r ("+".data) then
    let p := parseRange (r.drop 1)
    { h with NewStart := p.1, NewLines := p.2 }
  else h

/-- `parseHunkHeader` of `diff.go`: strip the leading `"@@ "`, cut at the
first `" @@"`, then scan the whitespace-separated fields for the `-` and
`+` ranges. -/
def parseHunkHeader (header : List Char) (hunk : Hunk) : Hunk :=
  let header := trimPrefixL header ("@@ ".data)
  match splitN2 header (" @@".data) with
  | [] => hunk
  | p0 :: _ => (goFields p0).foldl applyRange hunk

/-- The marker strings `Parse` recognizes, named so that proof goals
stay compact. -/
def markerDiffGit : List Char := ("diff --git ".data)
def markerNewFile : List Char := ("new file mode".data)
def markerDeletedFile : List Char := ("deleted file mode".data)
def markerRenameFrom : List Char := ("rename from ".data)
def markerRenameTo : List Char := ("rename to ".data)
def markerBinary : List Char := ("Binary files".data)
def markerOldPath : List Char := ("--- ".data)
def markerNewPath : List Char := ("+++ ".data)
def markerIndex : List Char := ("index ".data)
def markerSimilarity : List Char := ("similarity index".data)
def markerOldMode : List Char := ("old mode".data)
def markerNewMode : List Char := ("new mode".data)
def markerHunk : List Char := ("@@".data)
def devNull : List Char := ("/dev/null".data)

/-- Scanner state of `Parse`: the accumulated result plus the in-progress
file (`current`) and hunk (`currentHunk`) pointers. -/
structure ParseState where
  result : DiffResult
  current : Option FileDiff
  currentHunk : Option Hunk
deriving DecidableEq

/-- Append the in-progress hunk (if any) to a file, as done when a file
or hunk is finalized. -/
def flushHunk (cur : FileDiff) : Option Hunk → FileDiff
  | none => cur
  | some hk => { cur with Hunks := cur.Hunks ++ [hk] }

/-- The fresh `FileDiff` built in the `"diff --git "` branch of `Parse`:
status "modified", names extracted from the marker line's ` a/` and ` b/`
segments via `strings.SplitN(_, _, 2)`. -/
def mkFileFromHeader (line : List Char) : FileDiff :=
  let nw : FileDiff :=
    { OldName := [], NewName := [], Status := "modified",
      Additions := 0, Deletions := 0, IsBinary := false, Hunks := [] }
  let nw :=
    match splitN2 line (" b/".data) with
    | [_, b] => { nw with NewName := b }
    | _ => nw
  match splitN2 line (" a/".data) with
  | [_, a1] =>
    match splitN2 a1 (" b/".data) with
    | a0 :: _ => { nw with OldName := a0 }
    | [] => nw
  | _ => nw

/-- One iteration of the line loop of `Parse`, translated branch by
branch from the source. -/
def stepLine (st : ParseState) (line : List Char) : ParseState :=
  -- New file diff header
  if startsWithL line markerDiffGit then
    let files :=
      match st.current with
      | none => st.result.Files
      | some cur => st.result.Files ++ [flushHunk cur st.currentHunk]
    { result := { st.result with Files := files },
      current := some (mkFileFromHeader line),
      currentHunk := none }
  else
    match st.current with
    | none => st
    | some cur =>
      -- File mode lines
      if startsWithL line markerNewFile then
        { st with current := some { cur with Status := "added", OldName := devNull } }
      else if startsWithL line markerDeletedFile then
        { st with current := some { cur with Status := "deleted", NewName := devNull } }
      else if startsWithL line markerRenameFrom then
        { st with current := some { cur with Status := "renamed",
                                             OldName := trimPrefixL line markerRenameFrom } }
      else if startsWithL line markerRenameTo then
        { st with current := some { cur with NewName := trimPrefixL line markerRenameTo } }
      else if startsWithL line markerBinary then
        { st with current := some { cur with IsBinary := true } }
      -- Skip --- and +++ lines
      else if startsWithL line markerOldPath || startsWithL line markerNewPath then st
      -- Skip index lines
      else if startsWithL line markerIndex || startsWithL line markerSimilarity
           || startsWithL line markerOldMode || startsWithL line markerNewMode then st
      -- Hunk header
      else if startsWithL line markerHunk then
        let cur := flushHunk cur st.currentHunk
        let nh : Hunk :=
          { OldStart := 0, OldLines := 0, NewStart := 0, NewLines := 0,
            Header := line, Lines := [] }
        { st with current := some cur, currentHunk := some (parseHunkHeader line nh) }
      -- Diff content lines (incl. the discarded "\ No newline..." marker)
      else
        match st.currentHunk with
        | none => st
        | some hk =>
          if startsWithL line ['+'] then
            { result := { st.result with Additions := st.result.Additions + 1 },
              current := some { cur with Additions := cur.Additions + 1 },
              currentHunk := some { hk with Lines := hk.Lines ++ [{ «Type» := "add", Content := line.drop 1 }] } }
          else if startsWithL line ['-'] then
            { result := { st.result with Deletions := st.result.Deletions + 1 },
              current := some { cur with Deletions := cur.Deletions + 1 },
              currentHunk := some { hk with Lines := hk.Lines ++ [{ «Type» := "del", Content := line.drop 1 }] } }
          else if startsWithL line [' '] then
            { st with currentHunk := some { hk with Lines := hk.Lines ++ [{ «Type» := "context", Content := line.drop 1 }] } }
          else st

/-- The flush after the line loop of `Parse`: append any open hunk and
open file. -/
def flushState (st : ParseState) : DiffResult :=
  match st.current with
  | none => st.result
  | some cur => { st.result with Files := st.result.Files ++ [flushHunk cur st.currentHunk] }

/-- The empty `DiffResult` that `Parse` starts from (and returns for
blank input). -/
def emptyResult : DiffResult := { Files := [], Additions := 0, Deletions := 0, RawDiff := [] }

/-- `Parse` of `diff.go`, on the character-list representation of the
raw text. -/
def parseChars (raw : List Char) : DiffResult :=
  if trimSpace raw = [] then emptyResult
  else
    flushState ((splitWhen (fun c => c == '\n') raw).foldl stepLine
      { result := emptyResult, current := none, currentHunk := none })

/-- `Parse` of `diff.go`. -/
def Parse (raw : String) : DiffResult := parseChars raw.data

/-! ## `Diff` / `DiffInRepo` (`diff.go`, `workspace.go`)

The `git diff` subprocess is the external collaborator; its outcome as
observed through `cmd.Output()` is one of: success, an `*exec.ExitError`
carrying the exit code, captured stdout and stderr, or a non-exit error
(e.g. the binary could not be started). -/

inductive CmdOutcome where
  | success (stdout : String)
  | exitError (code : Int) (stdout stderr : String)
  | startError
deriving DecidableEq

/-- `Diff` of `diff.go`: exit status 1 is treated as "differences exist"
and parsed; any other `ExitError` or a start failure is returned as an
error. -/
def Diff (outcome : CmdOutcome) : Except String DiffResult :=
  match outcome with
  | .success out => .ok { Parse out with RawDiff := out.data }
  | .exitError code out stderr =>
    if code = 1 then .ok { Parse out with RawDiff := out.data }
    else .error ("git diff failed: " ++ stderr)
  | .startError => .error "git diff failed"

/-- `DiffInRepo` of `workspace.go`: the same exit-status handling as
`Diff` (the non-1 error is returned unwrapped there; we keep only the
ok/error distinction for the message). -/
def DiffInRepo (outcome : CmdOutcome) : Except String DiffResult :=
  match outcome with
  | .success out => .ok { Parse out with RawDiff := out.data }
  | .exitError code out stderr =>
    if code = 1 then .ok { Parse out with RawDiff := out.data }
    else .error stderr
  | .startError => .error "start failure"

/-! ## Path and ignore logic of `internal/watcher/watcher.go` -/

/-- `skipDirs` of `watcher.go`: well-known large/generated directory
names always excluded from recursive watching. -/
def skipDirs (name : List Char) : Bool :=
  [("node_modules".data), (".next".data), (".nuxt".data), ("vendor".data),
   ("dist".data), ("build".data), (".cache".data), ("__pycache__".data)].contains name

/-- Split a slash path into components. -/
def splitSlash (s : List Char) : List (List Char) :=
  splitWhen (fun c => c == '/') s

/-- The element-processing loop of `path/filepath.Clean` (unix rules):
drop empty and "." elements, resolve ".." against the stack. The
accumulator holds the output elements in reverse. -/
def cleanElems (rooted : Bool) (elems : List (List Char)) : List (List Char) :=
  (elems.foldl
    (fun acc e =>
      if e = [] ∨ e = ['.'] then acc
      else if e = ['.', '.'] then
        match acc with
        | [] => if rooted then [] else [['.', '.']]
        | top :: rest =>
          if top = ['.', '.'] then ['.', '.'] :: top :: rest else rest
      else e :: acc)
    []).reverse

/-- Join path components with slashes. -/
def joinSlash (elems : List (List Char)) : List Char :=
  match elems with
  | [] => []
  | e :: rest => e ++ (rest.foldl (fun acc x => acc ++ '/' :: x) [])

/-- `path/filepath.Clean` on unix (semantic form of Go's byte-level
loop): lexically shortest equivalent path. -/
def clean (path : List Char) : List Char :=
  if path = [] then ['.']
  else
    let rooted := path.head? = some '/'
    let body := joinSlash (cleanElems rooted (splitSlash path))
    if rooted then '/' :: body
    else if body = [] then ['.'] else body

/-- `isGitPath` of `watcher.go`: whether any component of the cleaned
slash path is ".git" (`filepath.ToSlash` is the identity on unix). -/
def isGitPath (path : String) : Bool :=
  (splitSlash (clean path.data)).contains (".git".data)

/-- `path/filepath.Base` on unix: empty path gives ".", all-slash paths
give "/", otherwise the last element after trailing slashes are
removed. -/
def baseName (path : List Char) : List Char :=
  if path = [] then ['.']
  else
    let p := (path.reverse.dropWhile (fun c => c == '/')).reverse
    if p = [] then ['/']
    else (splitSlash p).getLastD []

/-- Outcome of `cmd.Run()` for the `git check-ignore` subprocess: the
process exited with the given status, or could not be run at all. -/
inductive RunOutcome where
  | exit (code : Int)
  | execFailed
deriving DecidableEq

/-- `gitIgnored` of `watcher.go`: true only when the repo dir is nonempty
and `git check-ignore -q` exits 0 (`cmd.Run() == nil`); every failure
(exit 1, exit 128, exec failure) yields false. -/
def gitIgnored (repoDir : String) (outcome : RunOutcome) : Bool :=
  if repoDir = "" then false
  else
    match outcome with
    | .exit code => code == 0
    | .execFailed => false

/-- The per-directory skip decision of the `addRecursive` walk callback
(`watcher.go`): prune `.git` paths; away from the root prune well-known
large dirs, hidden dirs, and git-ignored dirs. `ignoreOutcome` is the
observed outcome of the `git check-ignore` subprocess for this path. -/
def walkSkip (root path repoDir : String) (ignoreOutcome : RunOutcome) : Bool :=
  if isGitPath path then true
  else if path ≠ root ∧ (skipDirs (baseName path.data) ∨ startsWithL (baseName path.data) ['.']) then
    true
  else if path ≠ root ∧ gitIgnored repoDir ignoreOutcome then true
  else false

/-! ## The watch manager (`Manager`, `watchEntry`) as a state machine

`Manager.Subscribe`, `Manager.unsubscribe` and the grace-period timer
callback (`removeEntry` + `watchEntry.close`) each run under the
manager's and entry's mutexes; we model each as one atomic step on the
manager state. `live d` counts the OS watch primitives (fsnotify
watchers) currently allocated for directory `d`: `fsnotify.NewWatcher()`
increments it, `watchEntry.close` (guarded by `closeOnce`) decrements
it. -/

/-- The subscriber-facing fields of `watchEntry`: the id-keyed subscriber
set (Go map, so ids are unique), the next id, and whether a grace-period
`stopTimer` is armed. -/
structure EntryState where
  subs : List Nat
  nextID : Nat
  timerArmed : Bool
deriving DecidableEq

/-- Manager state: the `entries` map plus the count of live OS watch
primitives per directory. -/
structure MState where
  entries : String → Option EntryState
  live : String → Nat

/-- Pointwise update of the `entries` map. -/
def setEntry (f : String → Option EntryState) (d : String) (e : Option EntryState) :
    String → Option EntryState :=
  fun x => if x = d then e else f x

/-- `Manager.Subscribe dir`: create the entry (allocating one OS watch)
when absent; stop any pending grace timer; register a fresh subscriber
id. -/
def subscribeStep (s : MState) (dir : String) : MState :=
  match s.entries dir with
  | none =>
    { entries := setEntry s.entries dir (some { subs := [0], nextID := 1, timerArmed := false }),
      live := fun x => if x = dir then s.live x + 1 else s.live x }
  | some e =>
    { s with
      entries := setEntry s.entries dir
        (some { subs := e.nextID :: e.subs, nextID := e.nextID + 1, timerArmed := false }) }

/-- `Manager.unsubscribe dir id`: no-op when no entry exists; otherwise
delete the id from the subscriber map and arm the grace timer when the
map became empty and no timer is armed yet. -/
def unsubscribeStep (s : MState) (dir : String) (id : Nat) : MState :=
  match s.entries dir with
  | none => s
  | some e =>
    let subs := e.subs.filter (fun i => i != id)
    let armed := if subs.isEmpty && !e.timerArmed then true else e.timerArmed
    { s with entries := setEntry s.entries dir (some { e with subs := subs, timerArmed := armed }) }

/-- The grace-period timer firing (`removeEntry` + `close`): only an
armed (never `Stop`ped) timer can fire; it removes the entry and closes
its OS watch exactly once. -/
def fireStep (s : MState) (dir : String) : MState :=
  match s.entries dir with
  | none => s
  | some e =>
    if e.timerArmed then
      { entries := setEntry s.entries dir none,
        live := fun x => if x = dir then s.live x - 1 else s.live x }
    else s

/-- The events a manager state can undergo. -/
inductive Ev where
  | sub (dir : String)
  | unsub (dir : String) (id : Nat)
  | fire (dir : String)

/-- Dispatch one event. -/
def mstep (s : MState) : Ev → MState
  | .sub dir => subscribeStep s dir
  | .unsub dir id => unsubscribeStep s dir id
  | .fire dir => fireStep s dir

/-- The initial manager state (`NewManager`): no entries, no watches. -/
def minit : MState := { entries := fun _ => none, live := fun _ => 0 }

/-- The state reached from `NewManager` by a sequence of events. -/
def mrun (evs : List Ev) : MState := evs.foldl mstep minit

/-! ## The entry reaction loop (`watchEntry.run`) and debounce

Within `watchEntry.run`, every qualifying filesystem event stops the
pending debounce timer (if any) and starts a fresh one; a timer that was
stopped before expiry never runs its callback. The callback performs one
non-blocking send to every subscriber's capacity-one channel. A `Sink`
models one subscriber channel: whether a signal is sitting in it
undelivered, and how many sends into it have succeeded. -/

structure Sink where
  pending : Bool
  delivered : Nat
deriving DecidableEq

/-- The non-blocking send (`select { case ch <- struct{}{} : default: }`):
deliver into an empty sink, drop into a full one. -/
def trySend (s : Sink) : Sink :=
  if s.pending then s else { pending := true, delivered := s.delivered + 1 }

/-- State of one `watchEntry.run` loop: the identity of the (at most one)
debounce timer that is armed and not yet stopped, a counter for fresh
timer identities, and the subscriber sinks. -/
structure RState where
  activeTimer : Option Nat
  nextTimer : Nat
  sinks : List Sink
deriving DecidableEq

/-- Events of the entry loop: a qualifying filesystem event, or the
expiry of the debounce timer with identity `t`. -/
inductive REv where
  | fsevent
  | fire (t : Nat)

/-- One step of the entry loop: a filesystem event stops the armed timer
and arms a fresh one; an expiry delivers to every sink only when its
timer is still the armed one (a stopped timer's callback never runs). -/
def stepEntry (st : RState) : REv → RState
  | .fsevent => { st with activeTimer := some st.nextTimer, nextTimer := st.nextTimer + 1 }
  | .fire t =>
    if st.activeTimer = some t then
      { st with activeTimer := none, sinks := st.sinks.map trySend }
    else st

/-- Run the entry loop over a sequence of events. -/
def runEntry (st : RState) (evs : List REv) : RState := evs.foldl stepEntry st

/-- The no-op condition for a stale `unsubscribe` call: the directory has
no entry, or its entry does not hold the id and (when the subscriber set
is empty) already has its grace timer armed. -/
def staleNoOp (s : MState) (d : String) (i : Nat) : Bool :=
  match s.entries d with
  | none => true
  | some e => !(e.subs.contains i) && (!e.subs.isEmpty || e.timerArmed)

/-! ## Invariants of the manager state machine -/

/-- Resource invariant: the live-OS-watch count of a directory is 1
exactly when it has an entry. -/
def MInv (s : MState) : Prop :=
  ∀ d, s.live d = if (s.entries d).isSome then 1 else 0

/-! ## Counting tagged lines (for the counter invariants of `Parse`) -/

/-- Number of lines tagged "add" in a hunk (as a Go `int`). -/
def hunkAdds (h : Hunk) : Int := ((h.Lines.filter (fun l => l.«Type» == "add")).length : Int)

/-- Number of lines tagged "del" in a hunk. -/
def hunkDels (h : Hunk) : Int := ((h.Lines.filter (fun l => l.«Type» == "del")).length : Int)

/-- Number of "add" lines across a list of hunks. -/
def hunksAdds (hs : List Hunk) : Int := (hs.map hunkAdds).sum

/-- Number of "del" lines across a list of hunks. -/
def hunksDels (hs : List Hunk) : Int := (hs.map hunkDels).sum

/-- "add" lines of an optional in-progress hunk. -/
def optAdds : Option Hunk → Int
  | none => 0
  | some h => hunkAdds h

/-- "del" lines of an optional in-progress hunk. -/
def optDels : Option Hunk → Int
  | none => 0
  | some h => hunkDels h

/-- `Additions` of an optional in-progress file. -/
def curAdds : Option FileDiff → Int
  | none => 0
  | some c => c.Additions

/-- `Deletions` of an optional in-progress file. -/
def curDels : Option FileDiff → Int
  | none => 0
  | some c => c.Deletions

/-- The counter invariant maintained by every iteration of the `Parse`
loop: the result totals equal the finalized files' counters plus the
in-progress file's, and each (in-progress or finalized) file's counters
equal its tagged-line counts, the in-progress hunk included. -/
def PInv (st : ParseState) : Prop :=
  st.result.Additions = (st.result.Files.map FileDiff.Additions).sum + curAdds st.current ∧
  st.result.Deletions = (st.result.Files.map FileDiff.Deletions).sum + curDels st.current ∧
  (∀ f ∈ st.result.Files, f.Additions = hunksAdds f.Hunks ∧ f.Deletions = hunksDels f.Hunks) ∧
  (∀ c, st.current = some c →
    c.Additions = hunksAdds c.Hunks + optAdds st.currentHunk ∧
    c.Deletions = hunksDels c.Hunks + optDels st.currentHunk)

/-- The counter invariants of a finished `DiffResult`. -/
def resultInv (r : DiffResult) : Prop :=
  r.Additions = (r.Files.map FileDiff.Additions).sum ∧
  r.Deletions = (r.Files.map FileDiff.Deletions).sum ∧
  ∀ f ∈ r.Files, f.Additions = hunksAdds f.Hunks ∧ f.Deletions = hunksDels f.Hunks

/-- A line that matches none of the marker forms `Parse` recognizes. -/
def notMarker (line : List Char) : Bool :=
  !(startsWithL line markerDiffGit) &&
  !(startsWithL line markerNewFile) &&
  !(startsWithL line markerDeletedFile) &&
  !(startsWithL line markerRenameFrom) &&
  !(startsWithL line markerRenameTo) &&
  !(startsWithL line markerBinary) &&
  !(startsWithL line markerOldPath) &&
  !(startsWithL line markerNewPath) &&
  !(startsWithL line markerIndex) &&
  !(startsWithL line markerSimilarity) &&
  !(startsWithL line markerOldMode) &&
  !(startsWithL line markerNewMode) &&
  !(startsWithL line markerHunk)

/-- Sample values used by witness instantiations. -/
def sampleFile : FileDiff :=
  { OldName := [], NewName := [], Status := "modified",
    Additions := 0, Deletions := 0, IsBinary := false, Hunks := [] }

def sampleHunk : Hunk :=
  { OldStart := 0, OldLines := 0, NewStart := 0, NewLines := 0, Header := [], Lines := [] }

def sampleState : ParseState :=
  { result := emptyResult, current := some sampleFile, currentHunk := some sampleHunk }

def sampleStateNoHunk : ParseState :=
  { result := emptyResult, current := some sampleFile, currentHunk := none }

theorem minv_init : MInv minit := by
  intro d; simp [minit]

theorem minv_step (s : MState) (e : Ev) (h : MInv s) : MInv (mstep s e) := by
  cases e with
  | sub dir =>
    intro d
    rcases hd : s.entries dir with _ | en
    · by_cases hx : d = dir
      · subst hx
        simp [mstep, subscribeStep, hd, setEntry, h d, hd]
      · simp [mstep, subscribeStep, hd, setEntry, hx, h d]
    · by_cases hx : d = dir
      · subst hx
        simp [mstep, subscribeStep, hd, setEntry, h d, hd]
      · simp [mstep, subscribeStep, hd, setEntry, hx, h d]
  | unsub dir i =>
    intro d
    rcases hd : s.entries dir with _ | en
    · simpa [mstep, unsubscribeStep, hd] using h d
    · by_cases hx : d = dir
      · subst hx
        simp [mstep, unsubscribeStep, hd, setEntry, h d, hd]
      · simp [mstep, unsubscribeStep, hd, setEntry, hx, h d]
  | fire dir =>
    intro d
    rcases hd : s.entries dir with _ | en
    · simpa [mstep, fireStep, hd] using h d
    · by_cases ht : en.timerArmed
      · by_cases hx : d = dir
        · subst hx
          simp [mstep, fireStep, hd, ht, setEntry, h d, hd]
        · simp [mstep, fireStep, hd, ht, setEntry, hx, h d]
      · simpa [mstep, fireStep, hd, ht] using h d

theorem minv_run (evs : List Ev) : MInv (mrun evs) := by
  suffices hgen : ∀ (s : MState), MInv s → MInv (evs.foldl mstep s) from hgen minit minv_init
  induction evs with
  | nil => intro s hs; exact hs
  | cons e rest ih => intro s hs; exact ih (mstep s e) (minv_step s e hs)

/-- Claim C1: At every reachable manager state the number of live OS watch
primitives for a directory is at most 1, and a `Subscribe` that finds a
live entry (in particular one left in its grace period by unsubscribing
every subscriber) reuses it: the live-watch count is unchanged and the
entry survives. -/
theorem subscribe_single_watch (evs : List Ev) (d : String) :
    (mrun evs).live d ≤ 1 ∧
    (((mrun evs).entries d).isSome = true →
      (subscribeStep (mrun evs) d).live d = (mrun evs).live d ∧
      ((subscribeStep (mrun evs) d).entries d).isSome = true) := by
  have hinv := minv_run evs d
  constructor
  · rw [hinv]; split <;> simp
  · intro hsome
    rcases he : (mrun evs).entries d with _ | en
    · simp [he] at hsome
    · constructor
      · simp [subscribeStep, he]
      · simp [subscribeStep, he, setEntry]

/-- Witness for `subscribe_single_watch`: after one subscribe and one
unsubscribe the entry of "a" is draining but still present, and a fresh
subscribe reuses it without touching the live-watch count. -/
theorem subscribe_single_watch_w :
    (((mrun [Ev.sub "a", Ev.unsub "a" 0]).entries "a").isSome = true) ∧
    (mrun [Ev.sub "a", Ev.unsub "a" 0]).live "a" ≤ 1 ∧
    (subscribeStep (mrun [Ev.sub "a", Ev.unsub "a" 0]) "a").live "a"
      = (mrun [Ev.sub "a", Ev.unsub "a" 0]).live "a" ∧
    ((subscribeStep (mrun [Ev.sub "a", Ev.unsub "a" 0]) "a").entries "a").isSome = true := by
  refine ⟨by decide, (subscribe_single_watch [Ev.sub "a", Ev.unsub "a" 0] "a").1, ?_, ?_⟩
  · exact ((subscribe_single_watch [Ev.sub "a", Ev.unsub "a" 0] "a").2 (by decide)).1
  · exact ((subscribe_single_watch [Ev.sub "a", Ev.unsub "a" 0] "a").2 (by decide)).2

/-! ## Debounce coalescing -/

theorem runEntry_replicate (n : Nat) (st : RState) :
    runEntry st (List.replicate (n + 1) REv.fsevent)
      = { st with activeTimer := some (st.nextTimer + n), nextTimer := st.nextTimer + n + 1 } := by
  induction n generalizing st with
  | zero => simp [runEntry, stepEntry, List.replicate]
  | succ k ih =>
    rw [List.replicate_succ]
    have hstep : runEntry st (REv.fsevent :: List.replicate (k + 1) REv.fsevent)
        = runEntry (stepEntry st REv.fsevent) (List.replicate (k + 1) REv.fsevent) := rfl
    rw [hstep, ih]
    simp [stepEntry]
    omega

theorem runEntry_append (st : RState) (l1 l2 : List REv) :
    runEntry st (l1 ++ l2) = runEntry (runEntry st l1) l2 := by
  simp [runEntry]

/-- Claim C2: N ≥ 1 qualifying events inside one debounce window (no expiry
between them) leave exactly one live timer; its expiry performs exactly
one non-blocking delivery per subscriber sink (an empty sink gains one
signal and one delivery, a full sink drops the signal unchanged), and the
expiry of any of the stopped timers delivers nothing. -/
theorem debounce_coalesces (n : Nat) (hn : 1 ≤ n) (sinks : List Sink) :
    (runEntry { activeTimer := none, nextTimer := 0, sinks := sinks }
        (List.replicate n REv.fsevent ++ [REv.fire (n - 1)])).sinks
      = sinks.map trySend ∧
    (∀ s : Sink,
      (s.pending = false → trySend s = { pending := true, delivered := s.delivered + 1 }) ∧
      (s.pending = true → trySend s = s)) ∧
    (∀ t, t + 1 < n →
      runEntry { activeTimer := none, nextTimer := 0, sinks := sinks }
          (List.replicate n REv.fsevent ++ [REv.fire t])
        = runEntry { activeTimer := none, nextTimer := 0, sinks := sinks }
            (List.replicate n REv.fsevent)) := by
  obtain ⟨m, rfl⟩ : ∃ m, n = m + 1 := ⟨n - 1, by omega⟩
  refine ⟨?_, ?_, ?_⟩
  · rw [runEntry_append, runEntry_replicate]
    simp [runEntry, stepEntry]
  · intro s
    constructor
    · intro hp; simp [trySend, hp]
    · intro hp; simp [trySend, hp]
  · intro t ht
    rw [runEntry_append, runEntry_replicate]
    have hmt : ¬ m = t := by omega
    simp [runEntry, stepEntry, hmt]

/-- Witness for `debounce_coalesces`: two events in one window, one
empty sink and one still-pending sink. -/
theorem debounce_coalesces_w :
    (runEntry { activeTimer := none, nextTimer := 0,
                sinks := [{ pending := false, delivered := 0 }, { pending := true, delivered := 5 }] }
        (List.replicate 2 REv.fsevent ++ [REv.fire 1])).sinks
      = [{ pending := true, delivered := 1 }, { pending := true, delivered := 5 }] ∧
    trySend { pending := false, delivered := 0 } = { pending := true, delivered := 1 } ∧
    trySend { pending := true, delivered := 5 } = { pending := true, delivered := 5 } ∧
    runEntry { activeTimer := none, nextTimer := 0,
               sinks := [{ pending := false, delivered := 0 }, { pending := true, delivered := 5 }] }
        (List.replicate 2 REv.fsevent ++ [REv.fire 0])
      = runEntry { activeTimer := none, nextTimer := 0,
                   sinks := [{ pending := false, delivered := 0 }, { pending := true, delivered := 5 }] }
          (List.replicate 2 REv.fsevent) := by
  have h := debounce_coalesces 2 (by decide)
    [{ pending := false, delivered := 0 }, { pending := true, delivered := 5 }]
  refine ⟨?_, ?_, ?_, ?_⟩
  · have := h.1
    simpa [trySend] using this
  · exact (h.2.1 { pending := false, delivered := 0 }).1 rfl
  · exact (h.2.1 { pending := true, delivered := 5 }).2 rfl
  · exact h.2.2 0 (by decide)

/-! ## Idempotence of the release function -/

theorem setEntry_setEntry (f : String → Option EntryState) (d : String)
    (a b : Option EntryState) : setEntry (setEntry f d a) d b = setEntry f d b := by
  funext x
  by_cases hx : x = d <;> simp [setEntry, hx]

theorem setEntry_same (f : String → Option EntryState) (d : String)
    (e : Option EntryState) (h : f d = e) : setEntry f d e = f := by
  funext x
  by_cases hx : x = d
  · subst hx; simp [setEntry, h]
  · simp [setEntry, hx]

/-- Claim C10 counterexample: the release function of a subscription is not
idempotent once the entry has been torn down and a new entry has
re-issued the same subscriber id: after `sub d / unsub d 0 / fire d /
sub d`, the new entry holds subscriber 0 and no armed timer, and a stale
second `unsub d 0` removes that fresh subscriber and arms a teardown
timer. -/
theorem release_not_idempotent_cex :
    ((mrun [Ev.sub "d", Ev.unsub "d" 0, Ev.fire "d", Ev.sub "d"]).entries "d").map
        (fun e => (e.subs, e.timerArmed)) = some ([0], false) ∧
    ((mrun [Ev.sub "d", Ev.unsub "d" 0, Ev.fire "d", Ev.sub "d", Ev.unsub "d" 0]).entries "d").map
        (fun e => (e.subs, e.timerArmed)) = some ([], true) := by
  constructor
  · decide
  · decide

/-- Claim C10 amended: calling the release function again immediately is a
no-op (double application of `unsubscribe` equals single application for
every state), and any further call finding the directory entry absent,
or finding an entry that does not hold the subscription's id (with the
grace timer already armed whenever the subscriber set is empty), leaves
the manager state entirely unchanged. Only a stale call whose id has
been re-issued by a newer entry escapes this. -/
theorem release_idempotent_amended (s : MState) (d : String) (i : Nat) :
    unsubscribeStep (unsubscribeStep s d i) d i = unsubscribeStep s d i ∧
    (staleNoOp s d i = true → unsubscribeStep s d i = s) := by
  constructor
  · rcases hd : s.entries d with _ | e
    · simp [unsubscribeStep, hd]
    · have hd' : (unsubscribeStep s d i).entries d
          = some { e with subs := e.subs.filter (fun j => j != i),
                          timerArmed :=
                            if (e.subs.filter (fun j => j != i)).isEmpty && !e.timerArmed
                            then true else e.timerArmed } := by
        simp [unsubscribeStep, hd, setEntry]
      conv_lhs => rw [unsubscribeStep]
      rw [hd']
      have hfilter : (e.subs.filter (fun j => j != i)).filter (fun j => j != i)
          = e.subs.filter (fun j => j != i) := by
        rw [List.filter_filter]
        congr 1
        funext j
        cases hji : (j != i) <;> simp [hji]
      by_cases hemp : (e.subs.filter (fun j => j != i)).isEmpty
      · by_cases harm : e.timerArmed
        · simp [unsubscribeStep, hd, hfilter, hemp, harm, setEntry_setEntry]
        · simp [unsubscribeStep, hd, hfilter, hemp, harm, setEntry_setEntry]
      · by_cases harm : e.timerArmed
        · simp [unsubscribeStep, hd, hfilter, hemp, harm, setEntry_setEntry]
        · simp [unsubscribeStep, hd, hfilter, hemp, harm, setEntry_setEntry]
  · intro hstale
    rcases hd : s.entries d with _ | e
    · simp [unsubscribeStep, hd]
    · rw [staleNoOp, hd] at hstale
      simp only [Bool.and_eq_true, Bool.or_eq_true, Bool.not_eq_true'] at hstale
      obtain ⟨hmem, hcond⟩ := hstale
      have hmem' : i ∉ e.subs := by simpa using hmem
      have hfilter : e.subs.filter (fun j => j != i) = e.subs := by
        rw [List.filter_eq_self]
        intro a ha
        have : a ≠ i := fun hai => hmem' (hai ▸ ha)
        simpa using this
      have harm : (if (e.subs.filter (fun j => j != i)).isEmpty && !e.timerArmed
          then true else e.timerArmed) = e.timerArmed := by
        rw [hfilter]
        rcases hcond with hcond | hcond
        · simp [hcond]
        · simp [hcond]
      show (unsubscribeStep s d i) = s
      rw [unsubscribeStep]
      rw [hd]
      dsimp only
      rw [harm, hfilter]
      have : setEntry s.entries d (some { e with subs := e.subs, timerArmed := e.timerArmed })
          = s.entries := setEntry_same _ _ _ (by simpa using hd)
      rw [this]

/-- Witness for `release_idempotent_amended`: the double-call equality at
a concrete state, and the no-op of a stale release after the entry of
"d" was torn down. -/
theorem release_idempotent_amended_w :
    unsubscribeStep (unsubscribeStep (mrun [Ev.sub "d", Ev.unsub "d" 0, Ev.fire "d"]) "d" 0) "d" 0
      = unsubscribeStep (mrun [Ev.sub "d", Ev.unsub "d" 0, Ev.fire "d"]) "d" 0 ∧
    staleNoOp (mrun [Ev.sub "d", Ev.unsub "d" 0, Ev.fire "d"]) "d" 0 = true ∧
    unsubscribeStep (mrun [Ev.sub "d", Ev.unsub "d" 0, Ev.fire "d"]) "d" 0
      = mrun [Ev.sub "d", Ev.unsub "d" 0, Ev.fire "d"] := by
  refine ⟨(release_idempotent_amended _ "d" 0).1, by decide, ?_⟩
  exact (release_idempotent_amended (mrun [Ev.sub "d", Ev.unsub "d" 0, Ev.fire "d"]) "d" 0).2
    (by decide)

/-! ## Exit-status handling of the diff operations -/

/-- Claim C7: exit status 1 from `git diff` is treated by both `Diff` and
`DiffInRepo` as "differences exist": the captured output is parsed and
returned without error; any other non-zero exit status is surfaced as an
error with no result. -/
theorem diff_exit_status (out stderr : String) (code : Int)
    (_h0 : code ≠ 0) (h1 : code ≠ 1) :
    Diff (CmdOutcome.exitError 1 out stderr) = .ok { Parse out with RawDiff := out.data } ∧
    DiffInRepo (CmdOutcome.exitError 1 out stderr) = .ok { Parse out with RawDiff := out.data } ∧
    (Diff (CmdOutcome.exitError code out stderr)).isOk = false ∧
    (DiffInRepo (CmdOutcome.exitError code out stderr)).isOk = false := by
  refine ⟨by simp [Diff], by simp [DiffInRepo], ?_, ?_⟩
  · simp [Diff, h1, Except.isOk, Except.toBool]
  · simp [DiffInRepo, h1, Except.isOk, Except.toBool]

/-- Witness for `diff_exit_status` at exit code 128. -/
theorem diff_exit_status_w :
    Diff (CmdOutcome.exitError 1 ("") ("boom")) = .ok { Parse ("") with RawDiff := [] } ∧
    DiffInRepo (CmdOutcome.exitError 1 ("") ("boom")) = .ok { Parse ("") with RawDiff := [] } ∧
    (Diff (CmdOutcome.exitError 128 ("") ("boom"))).isOk = false ∧
    (DiffInRepo (CmdOutcome.exitError 128 ("") ("boom"))).isOk = false := by
  have h := diff_exit_status ("") ("boom") 128 (by decide) (by decide)
  simpa using h

/-! ## Fail-open ignore checks -/

/-- Claim C8: whenever the `git check-ignore` query has any outcome other
than a clean exit 0, `gitIgnored` reports false (fail open), and the
`addRecursive` walk therefore does not prune a directory that is not a
`.git` path, not a well-known skip dir, and not hidden: the directory
stays eligible for watching. -/
theorem ignore_fail_open (repoDir root path : String) (outcome : RunOutcome)
    (hfail : outcome ≠ RunOutcome.exit 0)
    (hgit : isGitPath path = false)
    (hskip : skipDirs (baseName path.data) = false)
    (hhid : startsWithL (baseName path.data) ['.'] = false) :
    gitIgnored repoDir outcome = false ∧ walkSkip root path repoDir outcome = false := by
  have hig : gitIgnored repoDir outcome = false := by
    by_cases hrd : repoDir = ""
    · simp [gitIgnored, hrd]
    · cases outcome with
      | exit code =>
        have hc : code ≠ 0 := fun h => hfail (by rw [h])
        simp [gitIgnored, hrd, hc]
      | execFailed => simp [gitIgnored, hrd]
  refine ⟨hig, ?_⟩
  simp [walkSkip, hgit, hskip, hhid, hig]

/-- Witness for `ignore_fail_open`: a check-ignore failure (exit 128,
e.g. the path lies outside any repository) on a plain subdirectory. -/
theorem ignore_fail_open_w :
    gitIgnored ("/repo") (RunOutcome.exit 128) = false ∧
    walkSkip ("/w") ("/w/app") ("/repo") (RunOutcome.exit 128) = false := by
  exact ignore_fail_open ("/repo") ("/w") ("/w/app") (RunOutcome.exit 128)
    (by decide) (by decide) (by decide) (by decide)

/-! ## Facts about the string helpers -/

theorem startsWithL_nil_right (l : List Char) : startsWithL l [] = true := by
  cases l <;> rfl

theorem startsWithL_append_self (p s : List Char) : startsWithL (p ++ s) p = true := by
  induction p with
  | nil => exact startsWithL_nil_right s
  | cons c cs ih => simp [startsWithL, ih]

theorem startsWithL_append_false_of_take (x rest p : List Char)
    (h : startsWithL x (p.take x.length) = false) :
    startsWithL (x ++ rest) p = false := by
  induction x generalizing p with
  | nil => simp [startsWithL] at h
  | cons c x ih =>
    cases p with
    | nil => simp [startsWithL] at h
    | cons d p =>
      simp only [List.length_cons, List.take_succ_cons, startsWithL,
        Bool.and_eq_false_iff] at h
      rcases h with h | h
      · simp [startsWithL, h]
      · simp [startsWithL, ih _ h]

theorem trimPrefixL_append (p s : List Char) : trimPrefixL (p ++ s) p = s := by
  rw [trimPrefixL, if_pos (startsWithL_append_self p s)]
  exact List.drop_left p s

theorem splitFirst_eq_none (l : List Char) (d : Char) (ps : List Char)
    (h : ∀ c ∈ l, (c == d) = false) :
    splitFirst l (d :: ps) = none := by
  induction l with
  | nil => rfl
  | cons c rest ih =>
    rw [splitFirst]
    rw [if_neg (by simp [startsWithL, h c (by simp)])]
    rw [ih (fun c hc => h c (by simp [hc]))]

theorem splitFirst_append_left (x rest : List Char) (d : Char) (ps : List Char)
    (h : ∀ c ∈ x, (c == d) = false) :
    splitFirst (x ++ rest) (d :: ps)
      = (splitFirst rest (d :: ps)).map (fun pr => (x ++ pr.1, pr.2)) := by
  induction x with
  | nil =>
    rcases hs : splitFirst rest (d :: ps) with _ | pr <;> simp [hs]
  | cons c x ih =>
    rw [List.cons_append, splitFirst]
    rw [if_neg (by simp [startsWithL, h c (by simp)])]
    rw [ih (fun c hc => h c (by simp [hc]))]
    rcases hs : splitFirst rest (d :: ps) with _ | pr <;> simp

theorem splitFirst_sep (d : Char) (ps y : List Char) :
    splitFirst ((d :: ps) ++ y) (d :: ps) = some ([], y) := by
  rw [List.cons_append, splitFirst]
  rw [if_pos (by simpa using startsWithL_append_self (d :: ps) y)]
  simp [List.drop_left]

theorem splitWhen_ne_nil (p : Char → Bool) (l : List Char) : splitWhen p l ≠ [] := by
  cases l with
  | nil => simp [splitWhen]
  | cons c rest =>
    rw [splitWhen]
    split
    · simp
    · split <;> simp

theorem splitWhen_no_sep (p : Char → Bool) (l : List Char) (h : ∀ c ∈ l, p c = false) :
    splitWhen p l = [l] := by
  induction l with
  | nil => rfl
  | cons c rest ih =>
    rw [splitWhen, if_neg (by simp [h c (by simp)])]
    rw [ih (fun c hc => h c (by simp [hc]))]

theorem splitWhen_append_left (p : Char → Bool) (l rest : List Char)
    (h : ∀ c ∈ l, p c = false) (r : List Char) (rs : List (List Char))
    (hrest : splitWhen p rest = r :: rs) :
    splitWhen p (l ++ rest) = (l ++ r) :: rs := by
  induction l with
  | nil => simpa using hrest
  | cons c x ih =>
    rw [List.cons_append, splitWhen, if_neg (by simp [h c (by simp)])]
    rw [ih (fun c hc => h c (by simp [hc]))]
    rfl

theorem digit_not_space (c : Char) (h : c.isDigit = true) : goIsSpace c = false := by
  have hv : 48 ≤ c.toNat ∧ c.toNat ≤ 57 := by
    simp only [Char.isDigit] at h
    rw [Bool.and_eq_true] at h
    obtain ⟨h1, h2⟩ := h
    constructor
    · exact Nat.le_of_ble_eq_true (by simpa using h1)
    · exact Nat.le_of_ble_eq_true (by simpa using h2)
  obtain ⟨hlo, hhi⟩ := hv
  by_contra hcon
  rw [Bool.not_eq_false, goIsSpace] at hcon
  have hmem : c.toNat ∈ ([9, 10, 11, 12, 13, 32, 0x85, 0xA0, 0x1680,
      0x2000, 0x2001, 0x2002, 0x2003, 0x2004, 0x2005, 0x2006, 0x2007,
      0x2008, 0x2009, 0x200A, 0x2028, 0x2029, 0x202F, 0x205F, 0x3000] : List Nat) := by
    simpa using hcon
  simp only [List.mem_cons, List.not_mem_nil, or_false] at hmem
  rcases hmem with h | h | h | h | h | h | h | h | h | h | h | h | h |
    h | h | h | h | h | h | h | h | h | h | h | h <;> omega

theorem digit_beq_nondigit (c d : Char) (h : c.isDigit = true) (hd : d.isDigit = false) :
    (c == d) = false := by
  have : c ≠ d := by
    intro hEq
    subst hEq
    rw [h] at hd
    cases hd
  simpa using this

theorem goAtoiMag_digits (digits : List Char) (hne : digits ≠ [])
    (hd : allDigits digits = true) (hb : (digitsVal digits : Int) ≤ maxInt64) :
    goAtoiMag false digits = (digitsVal digits : Int) := by
  rw [goAtoiMag]
  have hie : digits.isEmpty = false := by
    rcases digits with _ | ⟨c, rest⟩
    · exact absurd rfl hne
    · rfl
  rw [if_neg (by simp [hie, hd])]
  dsimp only
  rw [if_neg Bool.false_ne_true]
  rw [if_neg (by omega)]
  rw [if_neg ?hmin]
  case hmin =>
    have hnn : (0 : Int) ≤ (digitsVal digits : Int) := Int.ofNat_nonneg _
    rw [minInt64]
    omega

theorem goAtoi_digits (l : List Char) (hl : l ≠ []) (hd : allDigits l = true)
    (hb : (digitsVal l : Int) ≤ maxInt64) :
    goAtoi l = (digitsVal l : Int) := by
  rcases l with _ | ⟨c0, rest⟩
  · exact absurd rfl hl
  have hc0 : c0.isDigit = true := by
    rw [allDigits, List.all_cons, Bool.and_eq_true] at hd
    exact hd.1
  have hplus : ¬ c0 = '+' := by
    intro hEq; subst hEq; simp at hc0
  have hminus : ¬ c0 = '-' := by
    intro hEq; subst hEq; simp at hc0
  have hgoal : goAtoi (c0 :: rest) = goAtoiMag false (c0 :: rest) := by
    rw [goAtoi, if_neg hplus, if_neg hminus]
  rw [hgoal]
  exact goAtoiMag_digits _ hl hd hb

/-! ## Counter invariants of `Parse` -/

theorem flushHunk_Additions (cur : FileDiff) (o : Option Hunk) :
    (flushHunk cur o).Additions = cur.Additions := by
  cases o <;> rfl

theorem flushHunk_Deletions (cur : FileDiff) (o : Option Hunk) :
    (flushHunk cur o).Deletions = cur.Deletions := by
  cases o <;> rfl

theorem flushHunk_hunksAdds (cur : FileDiff) (o : Option Hunk) :
    hunksAdds (flushHunk cur o).Hunks = hunksAdds cur.Hunks + optAdds o := by
  cases o with
  | none => simp [flushHunk, optAdds]
  | some hk => simp [flushHunk, optAdds, hunksAdds]

theorem flushHunk_hunksDels (cur : FileDiff) (o : Option Hunk) :
    hunksDels (flushHunk cur o).Hunks = hunksDels cur.Hunks + optDels o := by
  cases o with
  | none => simp [flushHunk, optDels]
  | some hk => simp [flushHunk, optDels, hunksDels]

theorem mkFileFromHeader_counters (line : List Char) :
    (mkFileFromHeader line).Additions = 0 ∧ (mkFileFromHeader line).Deletions = 0 ∧
    (mkFileFromHeader line).Hunks = [] := by
  rw [mkFileFromHeader]
  dsimp only
  refine ⟨?_, ?_, ?_⟩ <;> (repeat' split) <;> rfl

theorem applyRange_Lines (h : Hunk) (r : List Char) : (applyRange h r).Lines = h.Lines := by
  rw [applyRange]
  split
  · rfl
  · split <;> rfl

theorem foldl_applyRange_Lines (rs : List (List Char)) (h : Hunk) :
    (rs.foldl applyRange h).Lines = h.Lines := by
  induction rs generalizing h with
  | nil => rfl
  | cons r rest ih => rw [List.foldl_cons, ih, applyRange_Lines]

theorem parseHunkHeader_Lines (l : List Char) (h : Hunk) :
    (parseHunkHeader l h).Lines = h.Lines := by
  rw [parseHunkHeader]
  dsimp only
  split
  · rfl
  · exact foldl_applyRange_Lines _ _

theorem hunkAdds_nilLines (h : Hunk) (hl : h.Lines = []) : hunkAdds h = 0 := by
  simp [hunkAdds, hl]

theorem hunkDels_nilLines (h : Hunk) (hl : h.Lines = []) : hunkDels h = 0 := by
  simp [hunkDels, hl]

theorem hunkAdds_snoc (hk : Hunk) (l : Line) :
    hunkAdds { hk with Lines := hk.Lines ++ [l] }
      = hunkAdds hk + (if l.«Type» == "add" then 1 else 0) := by
  rw [hunkAdds, hunkAdds]
  simp only [List.filter_append, List.length_append]
  split
  case isTrue hif => simp [List.filter, hif]
  case isFalse hif =>
    rw [Bool.not_eq_true] at hif
    simp [List.filter, hif]

theorem hunkDels_snoc (hk : Hunk) (l : Line) :
    hunkDels { hk with Lines := hk.Lines ++ [l] }
      = hunkDels hk + (if l.«Type» == "del" then 1 else 0) := by
  rw [hunkDels, hunkDels]
  simp only [List.filter_append, List.length_append]
  split
  case isTrue hif => simp [List.filter, hif]
  case isFalse hif =>
    rw [Bool.not_eq_true] at hif
    simp [List.filter, hif]

theorem hunkAdds_snoc_add (hk : Hunk) (c : List Char) :
    hunkAdds { hk with Lines := hk.Lines ++ [{ «Type» := "add", Content := c }] }
      = hunkAdds hk + 1 := by
  rw [hunkAdds_snoc]; simp

theorem hunkAdds_snoc_del (hk : Hunk) (c : List Char) :
    hunkAdds { hk with Lines := hk.Lines ++ [{ «Type» := "del", Content := c }] }
      = hunkAdds hk := by
  rw [hunkAdds_snoc]; simp

theorem hunkAdds_snoc_ctx (hk : Hunk) (c : List Char) :
    hunkAdds { hk with Lines := hk.Lines ++ [{ «Type» := "context", Content := c }] }
      = hunkAdds hk := by
  rw [hunkAdds_snoc]; simp

theorem hunkDels_snoc_add (hk : Hunk) (c : List Char) :
    hunkDels { hk with Lines := hk.Lines ++ [{ «Type» := "add", Content := c }] }
      = hunkDels hk := by
  rw [hunkDels_snoc]; simp

theorem hunkDels_snoc_del (hk : Hunk) (c : List Char) :
    hunkDels { hk with Lines := hk.Lines ++ [{ «Type» := "del", Content := c }] }
      = hunkDels hk + 1 := by
  rw [hunkDels_snoc]; simp

theorem hunkDels_snoc_ctx (hk : Hunk) (c : List Char) :
    hunkDels { hk with Lines := hk.Lines ++ [{ «Type» := "context", Content := c }] }
      = hunkDels hk := by
  rw [hunkDels_snoc]; simp

theorem pinv_step (st : ParseState) (line : List Char) (h : PInv st) : PInv (stepLine st line) := by
  obtain ⟨res, scur, shk⟩ := st
  obtain ⟨ha, hd, hfiles, hcur⟩ := h
  dsimp only at ha hd hfiles hcur
  rw [stepLine]
  rcases scur with _ | cur
  · -- no file section open: only a "diff --git " line does anything
    dsimp only
    by_cases hq1 : startsWithL line markerDiffGit = true
    · rw [if_pos hq1]
      obtain ⟨hm1, hm2, hm3⟩ := mkFileFromHeader_counters line
      refine ⟨?_, ?_, ?_, ?_⟩
      · simpa [curAdds, hm1] using ha
      · simpa [curDels, hm2] using hd
      · simpa using hfiles
      · intro c hcEq
        simp only [Option.some.injEq] at hcEq
        subst hcEq
        simp [hm1, hm2, hm3, hunksAdds, hunksDels, optAdds, optDels]
    · rw [if_neg hq1]
      exact ⟨ha, hd, hfiles, hcur⟩
  · have hcc := hcur cur rfl
    dsimp only
    by_cases hq1 : startsWithL line markerDiffGit = true
    · -- "diff --git ": flush the open file (and hunk) and start a fresh one
      rw [if_pos hq1]
      obtain ⟨hm1, hm2, hm3⟩ := mkFileFromHeader_counters line
      refine ⟨?_, ?_, ?_, ?_⟩
      · simp only [curAdds, hm1, List.map_append, List.sum_append, List.map_cons,
          List.map_nil, List.sum_cons, List.sum_nil, flushHunk_Additions]
        simp only [curAdds] at ha
        omega
      · simp only [curDels, hm2, List.map_append, List.sum_append, List.map_cons,
          List.map_nil, List.sum_cons, List.sum_nil, flushHunk_Deletions]
        simp only [curDels] at hd
        omega
      · intro f hf
        simp only [List.mem_append, List.mem_singleton] at hf
        rcases hf with hf | hf
        · exact hfiles f hf
        · subst hf
          refine ⟨?_, ?_⟩
          · rw [flushHunk_Additions, flushHunk_hunksAdds]
            exact hcc.1
          · rw [flushHunk_Deletions, flushHunk_hunksDels]
            exact hcc.2
      · intro c hcEq
        simp only [Option.some.injEq] at hcEq
        subst hcEq
        simp [hm1, hm2, hm3, hunksAdds, hunksDels, optAdds, optDels]
    · rw [if_neg hq1]
      -- the marker cascade: name/status updates leave every counter alone
      by_cases hq2 : startsWithL line markerNewFile = true
      · rw [if_pos hq2]
        exact ⟨by simpa [curAdds] using ha, by simpa [curDels] using hd, hfiles,
        fun c hcEq => by
          simp only [Option.some.injEq] at hcEq
          subst hcEq
          simpa [hunksAdds, hunksDels] using hcc⟩
      · rw [if_neg hq2]
        by_cases hq3 : startsWithL line markerDeletedFile = true
        · rw [if_pos hq3]
          exact ⟨by simpa [curAdds] using ha, by simpa [curDels] using hd, hfiles,
        fun c hcEq => by
          simp only [Option.some.injEq] at hcEq
          subst hcEq
          simpa [hunksAdds, hunksDels] using hcc⟩
        · rw [if_neg hq3]
          by_cases hq4 : startsWithL line markerRenameFrom = true
          · rw [if_pos hq4]
            exact ⟨by simpa [curAdds] using ha, by simpa [curDels] using hd, hfiles,
        fun c hcEq => by
          simp only [Option.some.injEq] at hcEq
          subst hcEq
          simpa [hunksAdds, hunksDels] using hcc⟩
          · rw [if_neg hq4]
            by_cases hq5 : startsWithL line markerRenameTo = true
            · rw [if_pos hq5]
              exact ⟨by simpa [curAdds] using ha, by simpa [curDels] using hd, hfiles,
        fun c hcEq => by
          simp only [Option.some.injEq] at hcEq
          subst hcEq
          simpa [hunksAdds, hunksDels] using hcc⟩
            · rw [if_neg hq5]
              by_cases hq6 : startsWithL line markerBinary = true
              · rw [if_pos hq6]
                exact ⟨by simpa [curAdds] using ha, by simpa [curDels] using hd, hfiles,
        fun c hcEq => by
          simp only [Option.some.injEq] at hcEq
          subst hcEq
          simpa [hunksAdds, hunksDels] using hcc⟩
              · rw [if_neg hq6]
                by_cases hq7 : (startsWithL line markerOldPath || startsWithL line markerNewPath) = true
                · rw [if_pos hq7]
                  exact ⟨ha, hd, hfiles, hcur⟩
                · rw [if_neg hq7]
                  by_cases hq8 : (startsWithL line markerIndex || startsWithL line markerSimilarity
                      || startsWithL line markerOldMode || startsWithL line markerNewMode) = true
                  · rw [if_pos hq8]
                    exact ⟨ha, hd, hfiles, hcur⟩
                  · rw [if_neg hq8]
                    by_cases hq9 : startsWithL line markerHunk = true
                    · -- "@@": flush the open hunk, open a fresh one with no lines
                      rw [if_pos hq9]
                      refine ⟨?_, ?_, hfiles, ?_⟩
                      · simpa [curAdds, flushHunk_Additions] using ha
                      · simpa [curDels, flushHunk_Deletions] using hd
                      · intro c hcEq
                        simp only [Option.some.injEq] at hcEq
                        subst hcEq
                        have hph : hunkAdds (parseHunkHeader line
                            { OldStart := 0, OldLines := 0, NewStart := 0, NewLines := 0,
                              Header := line, Lines := [] }) = 0 :=
                          hunkAdds_nilLines _ (by rw [parseHunkHeader_Lines])
                        have hph2 : hunkDels (parseHunkHeader line
                            { OldStart := 0, OldLines := 0, NewStart := 0, NewLines := 0,
                              Header := line, Lines := [] }) = 0 :=
                          hunkDels_nilLines _ (by rw [parseHunkHeader_Lines])
                        have h1 := hcc.1
                        have h2 := hcc.2
                        refine ⟨?_, ?_⟩
                        · rw [flushHunk_Additions, flushHunk_hunksAdds]
                          simp only [optAdds] at h1 ⊢
                          rw [hph]
                          omega
                        · rw [flushHunk_Deletions, flushHunk_hunksDels]
                          simp only [optDels] at h2 ⊢
                          rw [hph2]
                          omega
                    · rw [if_neg hq9]
                      -- content lines, only with an open hunk
                      rcases shk with _ | hkv
                      · exact ⟨ha, hd, hfiles, hcur⟩
                      · have h1 := hcc.1
                        have h2 := hcc.2
                        simp only [optAdds, optDels] at h1 h2
                        dsimp only
                        by_cases hq10 : startsWithL line ['+'] = true
                        · rw [if_pos hq10]
                          refine ⟨?_, ?_, hfiles, ?_⟩
                          · simp only [curAdds]
                            simp only [curAdds] at ha
                            omega
                          · simpa [curDels] using hd
                          · intro c hcEq
                            simp only [Option.some.injEq] at hcEq
                            subst hcEq
                            refine ⟨?_, ?_⟩
                            · simp only [optAdds, hunkAdds_snoc_add]
                              omega
                            · simp only [optDels, hunkDels_snoc_add]
                              omega
                        · rw [if_neg hq10]
                          by_cases hq11 : startsWithL line ['-'] = true
                          · rw [if_pos hq11]
                            refine ⟨?_, ?_, hfiles, ?_⟩
                            · simpa [curAdds] using ha
                            · simp only [curDels]
                              simp only [curDels] at hd
                              omega
                            · intro c hcEq
                              simp only [Option.some.injEq] at hcEq
                              subst hcEq
                              refine ⟨?_, ?_⟩
                              · simp only [optAdds, hunkAdds_snoc_del]
                                omega
                              · simp only [optDels, hunkDels_snoc_del]
                                omega
                          · rw [if_neg hq11]
                            by_cases hq12 : startsWithL line [' '] = true
                            · rw [if_pos hq12]
                              refine ⟨?_, ?_, hfiles, ?_⟩
                              · simpa [curAdds] using ha
                              · simpa [curDels] using hd
                              · intro c hcEq
                                simp only [Option.some.injEq] at hcEq
                                subst hcEq
                                refine ⟨?_, ?_⟩
                                · simp only [optAdds, hunkAdds_snoc_ctx]
                                  omega
                                · simp only [optDels, hunkDels_snoc_ctx]
                                  omega
                            · rw [if_neg hq12]
                              exact ⟨ha, hd, hfiles, hcur⟩

theorem pinv_fold (lines : List (List Char)) (st : ParseState) (h : PInv st) :
    PInv (lines.foldl stepLine st) := by
  induction lines generalizing st with
  | nil => exact h
  | cons l rest ih => exact ih _ (pinv_step st l h)

theorem pinv_init : PInv { result := emptyResult, current := none, currentHunk := none } := by
  refine ⟨?_, ?_, ?_, ?_⟩ <;> simp [emptyResult, curAdds, curDels]

theorem flushState_resultInv (st : ParseState) (h : PInv st) : resultInv (flushState st) := by
  obtain ⟨ha, hd, hfiles, hcur⟩ := h
  rw [flushState]
  rcases hc : st.current with _ | cur
  · rw [hc] at ha hd
    exact ⟨by simpa [curAdds] using ha, by simpa [curDels] using hd, hfiles⟩
  · rw [hc] at ha hd
    have hcc := hcur cur hc
    refine ⟨?_, ?_, ?_⟩
    · simp only [List.map_append, List.sum_append, List.map_cons, List.map_nil,
        List.sum_cons, List.sum_nil, flushHunk_Additions]
      simpa [curAdds] using ha
    · simp only [List.map_append, List.sum_append, List.map_cons, List.map_nil,
        List.sum_cons, List.sum_nil, flushHunk_Deletions]
      simpa [curDels] using hd
    · intro f hf
      simp only [List.mem_append, List.mem_singleton] at hf
      rcases hf with hf | hf
      · exact hfiles f hf
      · subst hf
        constructor
        · rw [flushHunk_Additions, flushHunk_hunksAdds]
          exact hcc.1
        · rw [flushHunk_Deletions, flushHunk_hunksDels]
          exact hcc.2

/-- Claim C3: for every input, the totals of the parsed `DiffResult` are the
sums of the per-file counters, and each file's counters are the counts
of its "add"/"del" tagged lines across its hunks. -/
theorem parse_counter_invariants (raw : String) :
    (Parse raw).Additions = ((Parse raw).Files.map FileDiff.Additions).sum ∧
    (Parse raw).Deletions = ((Parse raw).Files.map FileDiff.Deletions).sum ∧
    ∀ f ∈ (Parse raw).Files,
      f.Additions = hunksAdds f.Hunks ∧ f.Deletions = hunksDels f.Hunks := by
  show resultInv (Parse raw)
  rw [Parse, parseChars]
  split
  · exact ⟨rfl, rfl, by simp [emptyResult]⟩
  · exact flushState_resultInv _ (pinv_fold _ _ pinv_init)

/-- Witness for `parse_counter_invariants`: a one-file, one-hunk diff
whose single file satisfies the per-file counter equations. -/
theorem parse_counter_invariants_w :
    ((Parse "diff --git a/x b/x\n@@ -1 +1 @@\n+hi\n").Files.headD sampleFile)
      ∈ (Parse "diff --git a/x b/x\n@@ -1 +1 @@\n+hi\n").Files ∧
    ((Parse "diff --git a/x b/x\n@@ -1 +1 @@\n+hi\n").Files.headD sampleFile).Additions
      = hunksAdds ((Parse "diff --git a/x b/x\n@@ -1 +1 @@\n+hi\n").Files.headD sampleFile).Hunks ∧
    ((Parse "diff --git a/x b/x\n@@ -1 +1 @@\n+hi\n").Files.headD sampleFile).Deletions
      = hunksDels ((Parse "diff --git a/x b/x\n@@ -1 +1 @@\n+hi\n").Files.headD sampleFile).Hunks :=
  ⟨by decide,
   ((parse_counter_invariants "diff --git a/x b/x\n@@ -1 +1 @@\n+hi\n").2.2 _ (by decide)).1,
   ((parse_counter_invariants "diff --git a/x b/x\n@@ -1 +1 @@\n+hi\n").2.2 _ (by decide)).2⟩


/-! ## Line classification and inert lines -/

theorem startsWithL_append_ne (x rest p : List Char)
    (h : startsWithL x (p.take x.length) = false) :
    ¬ (startsWithL (x ++ rest) p = true) := by
  rw [startsWithL_append_false_of_take x rest p h]
  simp

/-- A line that opens no file section and is not a file-diff marker
leaves the scan state unchanged. -/
theorem stepLine_no_current (st : ParseState) (line : List Char)
    (hc : st.current = none) (hdg : startsWithL line markerDiffGit = false) :
    stepLine st line = st := by
  obtain ⟨res, scur, shk⟩ := st
  dsimp only at hc
  subst hc
  rw [stepLine, if_neg (by simp [hdg])]

/-- Claim C4: while a file section and a hunk are open, a non-marker line is
classified by its first character: `+` appends an add line (content =
the line minus the marker) and increments the file and result addition
counters; `-` does the same for deletions; a leading space appends a
context line and touches no counter. -/
theorem content_line_classification (st : ParseState) (line : List Char)
    (cur : FileDiff) (hk : Hunk)
    (hc : st.current = some cur) (hh : st.currentHunk = some hk)
    (hm : notMarker line = true) :
    (∀ rest, line = '+' :: rest →
      stepLine st line
        = { result := { st.result with Additions := st.result.Additions + 1 },
            current := some { cur with Additions := cur.Additions + 1 },
            currentHunk := some { hk with
              Lines := hk.Lines ++ [{ «Type» := "add", Content := rest }] } }) ∧
    (∀ rest, line = '-' :: rest →
      stepLine st line
        = { result := { st.result with Deletions := st.result.Deletions + 1 },
            current := some { cur with Deletions := cur.Deletions + 1 },
            currentHunk := some { hk with
              Lines := hk.Lines ++ [{ «Type» := "del", Content := rest }] } }) ∧
    (∀ rest, line = ' ' :: rest →
      stepLine st line
        = { st with currentHunk := some { hk with
              Lines := hk.Lines ++ [{ «Type» := "context", Content := rest }] } }) := by
  obtain ⟨res, scur, shk⟩ := st
  dsimp only at hc hh ⊢
  subst hc
  subst hh
  simp only [notMarker, Bool.and_eq_true, Bool.not_eq_true'] at hm
  obtain ⟨⟨⟨⟨⟨⟨⟨⟨⟨⟨⟨⟨h1, h2⟩, h3⟩, h4⟩, h5⟩, h6⟩, h7⟩, h8⟩, h9⟩, h10⟩, h11⟩, h12⟩, h13⟩ := hm
  refine ⟨?_, ?_, ?_⟩
  · intro rest hline
    subst hline
    rw [stepLine, if_neg (by simp [h1])]
    dsimp only
    rw [if_neg (by simp [h2]), if_neg (by simp [h3]), if_neg (by simp [h4]),
        if_neg (by simp [h5]), if_neg (by simp [h6]), if_neg (by simp [h7, h8]),
        if_neg (by simp [h9, h10, h11, h12]), if_neg (by simp [h13])]
    rw [if_pos (by simp [startsWithL, startsWithL_nil_right])]
    rfl
  · intro rest hline
    subst hline
    rw [stepLine, if_neg (by simp [h1])]
    dsimp only
    rw [if_neg (by simp [h2]), if_neg (by simp [h3]), if_neg (by simp [h4]),
        if_neg (by simp [h5]), if_neg (by simp [h6]), if_neg (by simp [h7, h8]),
        if_neg (by simp [h9, h10, h11, h12]), if_neg (by simp [h13])]
    rw [if_neg (by simp [startsWithL]),
        if_pos (by simp [startsWithL, startsWithL_nil_right])]
    rfl
  · intro rest hline
    subst hline
    rw [stepLine, if_neg (by simp [h1])]
    dsimp only
    rw [if_neg (by simp [h2]), if_neg (by simp [h3]), if_neg (by simp [h4]),
        if_neg (by simp [h5]), if_neg (by simp [h6]), if_neg (by simp [h7, h8]),
        if_neg (by simp [h9, h10, h11, h12]), if_neg (by simp [h13])]
    rw [if_neg (by simp [startsWithL]), if_neg (by simp [startsWithL]),
        if_pos (by simp [startsWithL, startsWithL_nil_right])]
    rfl

/-- Witness for `content_line_classification`: the line "+x" inside an
open hunk. -/
theorem content_line_classification_w :
    notMarker ('+' :: ("x".data)) = true ∧
    stepLine sampleState ('+' :: ("x".data))
      = { result := { sampleState.result with Additions := sampleState.result.Additions + 1 },
          current := some { sampleFile with Additions := sampleFile.Additions + 1 },
          currentHunk := some { sampleHunk with
            Lines := sampleHunk.Lines ++ [{ «Type» := "add", Content := ("x".data) }] } } :=
  ⟨by decide,
    (content_line_classification sampleState ('+' :: ("x".data)) sampleFile sampleHunk
      rfl rfl (by decide)).1 ("x".data) rfl⟩

/-- Claim C5: inside a file section, a "new file mode" line sets the status
to added and the old name to the /dev/null sentinel; a "deleted file
mode" line sets the status to deleted and the new name to the sentinel;
"rename from X" / "rename to Y" lines set the status to renamed and take
the names from those lines (overwriting whatever the "diff --git "
marker line put there). -/
theorem mode_and_rename_lines (st : ParseState) (cur : FileDiff)
    (hc : st.current = some cur) :
    (∀ rest, stepLine st (markerNewFile ++ rest)
        = { st with current := some { cur with Status := "added", OldName := devNull } }) ∧
    (∀ rest, stepLine st (markerDeletedFile ++ rest)
        = { st with current := some { cur with Status := "deleted", NewName := devNull } }) ∧
    (∀ nameOld, stepLine st (markerRenameFrom ++ nameOld)
        = { st with current := some { cur with Status := "renamed", OldName := nameOld } }) ∧
    (∀ nameNew, stepLine st (markerRenameTo ++ nameNew)
        = { st with current := some { cur with NewName := nameNew } }) := by
  obtain ⟨res, scur, shk⟩ := st
  dsimp only at hc ⊢
  subst hc
  refine ⟨?_, ?_, ?_, ?_⟩
  · intro rest
    rw [stepLine, if_neg (startsWithL_append_ne _ _ _ (by decide))]
    dsimp only
    rw [if_pos (startsWithL_append_self markerNewFile rest)]
  · intro rest
    rw [stepLine, if_neg (startsWithL_append_ne _ _ _ (by decide))]
    dsimp only
    rw [if_neg (startsWithL_append_ne _ _ _ (by decide))]
    rw [if_pos (startsWithL_append_self markerDeletedFile rest)]
  · intro nameOld
    rw [stepLine, if_neg (startsWithL_append_ne _ _ _ (by decide))]
    dsimp only
    rw [if_neg (startsWithL_append_ne _ _ _ (by decide))]
    rw [if_neg (startsWithL_append_ne _ _ _ (by decide))]
    rw [if_pos (startsWithL_append_self markerRenameFrom nameOld)]
    rw [trimPrefixL_append]
  · intro nameNew
    rw [stepLine, if_neg (startsWithL_append_ne _ _ _ (by decide))]
    dsimp only
    rw [if_neg (startsWithL_append_ne _ _ _ (by decide))]
    rw [if_neg (startsWithL_append_ne _ _ _ (by decide))]
    rw [if_neg (startsWithL_append_ne _ _ _ (by decide))]
    rw [if_pos (startsWithL_append_self markerRenameTo nameNew)]
    rw [trimPrefixL_append]

/-- Witness for `mode_and_rename_lines`: a rename pair applied to a file
whose marker-line names differ from the rename-line names. -/
theorem mode_and_rename_lines_w :
    stepLine sampleState (markerRenameFrom ++ ("old_name.go".data))
      = { sampleState with
          current := some { sampleFile with Status := "renamed", OldName := ("old_name.go".data) } } ∧
    stepLine sampleState (markerRenameTo ++ ("new_name.go".data))
      = { sampleState with current := some { sampleFile with NewName := ("new_name.go".data) } } ∧
    stepLine sampleState (markerNewFile ++ (" 100644".data))
      = { sampleState with
          current := some { sampleFile with Status := "added", OldName := devNull } } :=
  ⟨(mode_and_rename_lines sampleState sampleFile rfl).2.2.1 ("old_name.go".data),
   (mode_and_rename_lines sampleState sampleFile rfl).2.2.2 ("new_name.go".data),
   (mode_and_rename_lines sampleState sampleFile rfl).1 (" 100644".data)⟩

/-- Claim C9: lines before the first "diff --git " line, and non-marker lines
inside a file section before its first hunk header, contribute nothing:
the scan state is untouched; an input with no "diff --git " line at all
(empty and whitespace-only inputs included) parses to the empty result. -/
theorem preamble_lines_inert :
    (∀ (st : ParseState) (line : List Char), st.current = none →
      startsWithL line markerDiffGit = false → stepLine st line = st) ∧
    (∀ (st : ParseState) (cur : FileDiff) (line : List Char), st.current = some cur →
      st.currentHunk = none → notMarker line = true → stepLine st line = st) ∧
    (∀ raw : String,
      (∀ l ∈ splitWhen (fun c => c == '\n') raw.data, startsWithL l markerDiffGit = false) →
      Parse raw = emptyResult) := by
  refine ⟨stepLine_no_current, ?_, ?_⟩
  · intro st cur line hc hh hm
    obtain ⟨res, scur, shk⟩ := st
    dsimp only at hc hh
    subst hc
    subst hh
    simp only [notMarker, Bool.and_eq_true, Bool.not_eq_true'] at hm
    obtain ⟨⟨⟨⟨⟨⟨⟨⟨⟨⟨⟨⟨h1, h2⟩, h3⟩, h4⟩, h5⟩, h6⟩, h7⟩, h8⟩, h9⟩, h10⟩, h11⟩, h12⟩, h13⟩ := hm
    rw [stepLine, if_neg (by simp [h1])]
    dsimp only
    rw [if_neg (by simp [h2]), if_neg (by simp [h3]), if_neg (by simp [h4]),
        if_neg (by simp [h5]), if_neg (by simp [h6]), if_neg (by simp [h7, h8]),
        if_neg (by simp [h9, h10, h11, h12]), if_neg (by simp [h13])]
  · intro raw hall
    rw [Parse, parseChars]
    split
    · rfl
    · have hfold : ∀ (lines : List (List Char)),
          (∀ l ∈ lines, startsWithL l markerDiffGit = false) →
          lines.foldl stepLine { result := emptyResult, current := none, currentHunk := none }
            = { result := emptyResult, current := none, currentHunk := none } := by
        intro lines
        induction lines with
        | nil => intro _; rfl
        | cons l ls ih =>
          intro hl
          rw [List.foldl_cons,
            stepLine_no_current _ _ rfl (hl l (by simp)),
            ih (fun x hx => hl x (by simp [hx]))]
      rw [hfold _ hall]
      rfl

/-- Witness for `preamble_lines_inert`: a preamble line with no open
file, an index line... a non-marker "+x" line with no open hunk, and a
two-line input with no file-diff marker at all. -/
theorem preamble_lines_inert_w :
    stepLine { result := emptyResult, current := none, currentHunk := none } ("hello".data)
      = { result := emptyResult, current := none, currentHunk := none } ∧
    stepLine sampleStateNoHunk ('+' :: ("x".data)) = sampleStateNoHunk ∧
    Parse "hello\nworld" = emptyResult := by
  refine ⟨?_, ?_, ?_⟩
  · exact preamble_lines_inert.1 _ ("hello".data) rfl (by decide)
  · exact preamble_lines_inert.2.1 sampleStateNoHunk sampleFile ('+' :: ("x".data))
      rfl rfl (by decide)
  · exact preamble_lines_inert.2.2 "hello\nworld" (by decide)



/-! ## The hunk header grammar -/

theorem startsWithL_cons_ne (c d : Char) (s p : List Char) (h : (c == d) = false) :
    startsWithL (c :: s) (d :: p) = false := by
  simp [startsWithL, h]

theorem all_digits_mem (l : List Char) (hd : allDigits l = true) :
    ∀ c ∈ l, c.isDigit = true := by
  rw [allDigits, List.all_eq_true] at hd
  exact hd

theorem mem_digits_beq (l : List Char) (d : Char) (hd : allDigits l = true)
    (hnd : d.isDigit = false) : ∀ c ∈ l, (c == d) = false :=
  fun c hc => digit_beq_nondigit c d (all_digits_mem l hd c hc) hnd

theorem mem_cons_digits_beq (c0 : Char) (l : List Char) (d : Char)
    (h0 : (c0 == d) = false) (hd : allDigits l = true) (hnd : d.isDigit = false) :
    ∀ c ∈ c0 :: l, (c == d) = false := by
  intro c hc
  rcases List.mem_cons.mp hc with rfl | hc
  · exact h0
  · exact mem_digits_beq l d hd hnd c hc

theorem mem_digits_space (l : List Char) (hd : allDigits l = true) :
    ∀ c ∈ l, goIsSpace c = false :=
  fun c hc => digit_not_space c (all_digits_mem l hd c hc)

theorem mem_cons_digits_space (c0 : Char) (l : List Char)
    (h0 : goIsSpace c0 = false) (hd : allDigits l = true) :
    ∀ c ∈ c0 :: l, goIsSpace c = false := by
  intro c hc
  rcases List.mem_cons.mp hc with rfl | hc
  · exact h0
  · exact mem_digits_space l hd c hc

theorem splitFirst_head_match (d : Char) (y : List Char) :
    splitFirst (d :: y) (d :: []) = some ([], y) := by
  rw [splitFirst, if_pos (by simp [startsWithL, startsWithL_nil_right])]
  simp

theorem parseRange_comma (as bs : List Char)
    (hneA : as ≠ []) (hdA : allDigits as = true) (hbA : (digitsVal as : Int) ≤ maxInt64)
    (hneB : bs ≠ []) (hdB : allDigits bs = true) (hbB : (digitsVal bs : Int) ≤ maxInt64) :
    parseRange (as ++ ',' :: bs) = ((digitsVal as : Int), (digitsVal bs : Int)) := by
  rw [parseRange, splitN2]
  rw [show (",".data) = (',' :: ([] : List Char)) from by decide]
  rw [splitFirst_append_left as (',' :: bs) ',' [] (mem_digits_beq as ',' hdA (by decide))]
  rw [splitFirst_head_match]
  simp only [Option.map_some', List.append_nil]
  rw [goAtoi_digits as hneA hdA hbA, goAtoi_digits bs hneB hdB hbB]

theorem parseRange_nocomma (as : List Char)
    (hneA : as ≠ []) (hdA : allDigits as = true) (hbA : (digitsVal as : Int) ≤ maxInt64) :
    parseRange as = ((digitsVal as : Int), 1) := by
  rw [parseRange, splitN2]
  rw [show (",".data) = (',' :: ([] : List Char)) from by decide]
  rw [splitFirst_eq_none as ',' [] (mem_digits_beq as ',' hdA (by decide))]
  dsimp only
  rw [goAtoi_digits as hneA hdA hbA]

theorem applyRange_minus (h : Hunk) (w : List Char) :
    applyRange h ('-' :: w)
      = { h with OldStart := (parseRange w).1, OldLines := (parseRange w).2 } := by
  rw [applyRange]
  rw [if_pos (by
    rw [show ("-".data) = ('-' :: ([] : List Char)) from by decide]
    simp [startsWithL, startsWithL_nil_right])]
  rfl

theorem applyRange_plus (h : Hunk) (w : List Char) :
    applyRange h ('+' :: w)
      = { h with NewStart := (parseRange w).1, NewLines := (parseRange w).2 } := by
  rw [applyRange]
  rw [if_neg (by
    rw [show ("-".data) = ('-' :: ([] : List Char)) from by decide]
    rw [startsWithL_cons_ne '+' '-' w [] (by decide)]
    simp)]
  rw [if_pos (by
    rw [show ("+".data) = ('+' :: ([] : List Char)) from by decide]
    simp [startsWithL, startsWithL_nil_right])]
  rfl

/-- Claim C6: a header `@@ -a,b +c,d @@ ...` parses to `OldStart=a`,
`OldLines=b`, `NewStart=c`, `NewLines=d`, and when either range omits its
`,len` part the corresponding length defaults to 1 independently: both
omitted (`@@ -a +c @@ ...`), only the old length omitted
(`@@ -a +c,d @@ ...`), or only the new length omitted
(`@@ -a,b +c @@ ...`). Values are arbitrary digit strings whose value
fits a 64-bit int (beyond which `strconv.Atoi` would clamp). -/
theorem hunk_header_parses (as bs cs ds tail : List Char) (h : Hunk)
    (hneA : as ≠ []) (hneB : bs ≠ []) (hneC : cs ≠ []) (hneD : ds ≠ [])
    (hdA : allDigits as = true) (hdB : allDigits bs = true)
    (hdC : allDigits cs = true) (hdD : allDigits ds = true)
    (hbA : (digitsVal as : Int) ≤ maxInt64) (hbB : (digitsVal bs : Int) ≤ maxInt64)
    (hbC : (digitsVal cs : Int) ≤ maxInt64) (hbD : (digitsVal ds : Int) ≤ maxInt64) :
    parseHunkHeader (("@@ ".data) ++ (('-' :: as) ++ ((',' :: bs)
        ++ (' ' :: (('+' :: cs) ++ ((',' :: ds) ++ ((" @@".data) ++ tail))))))) h
      = { h with OldStart := (digitsVal as : Int), OldLines := (digitsVal bs : Int),
                 NewStart := (digitsVal cs : Int), NewLines := (digitsVal ds : Int) } ∧
    parseHunkHeader (("@@ ".data) ++ (('-' :: as)
        ++ (' ' :: (('+' :: cs) ++ ((" @@".data) ++ tail))))) h
      = { h with OldStart := (digitsVal as : Int), OldLines := 1,
                 NewStart := (digitsVal cs : Int), NewLines := 1 } ∧
    parseHunkHeader (("@@ ".data) ++ (('-' :: as)
        ++ (' ' :: (('+' :: cs) ++ ((',' :: ds) ++ ((" @@".data) ++ tail)))))) h
      = { h with OldStart := (digitsVal as : Int), OldLines := 1,
                 NewStart := (digitsVal cs : Int), NewLines := (digitsVal ds : Int) } ∧
    parseHunkHeader (("@@ ".data) ++ (('-' :: as) ++ ((',' :: bs)
        ++ (' ' :: (('+' :: cs) ++ ((" @@".data) ++ tail)))))) h
      = { h with OldStart := (digitsVal as : Int), OldLines := (digitsVal bs : Int),
                 NewStart := (digitsVal cs : Int), NewLines := 1 } := by
  refine ⟨?_, ?_, ?_, ?_⟩
  · rw [parseHunkHeader]
    dsimp only
    rw [trimPrefixL_append, splitN2]
    have hf4 : splitFirst ((' ' :: '@' :: '@' :: []) ++ tail) (' ' :: '@' :: '@' :: [])
        = some ([], tail) := splitFirst_sep ' ' ('@' :: '@' :: []) tail
    have hf3 : splitFirst ((',' :: ds) ++ ((' ' :: '@' :: '@' :: []) ++ tail))
        (' ' :: '@' :: '@' :: []) = some ((',' :: ds), tail) := by
      rw [splitFirst_append_left _ _ _ _
        (mem_cons_digits_beq ',' ds ' ' (by decide) hdD (by decide)), hf4]
      simp
    have hf2 : splitFirst (('+' :: cs) ++ ((',' :: ds) ++ ((' ' :: '@' :: '@' :: []) ++ tail)))
        (' ' :: '@' :: '@' :: []) = some (('+' :: cs) ++ (',' :: ds), tail) := by
      rw [splitFirst_append_left _ _ _ _
        (mem_cons_digits_beq '+' cs ' ' (by decide) hdC (by decide)), hf3]
      simp
    have hf1sp : splitFirst
        (' ' :: (('+' :: cs) ++ ((',' :: ds) ++ ((' ' :: '@' :: '@' :: []) ++ tail))))
        (' ' :: '@' :: '@' :: [])
        = some (' ' :: (('+' :: cs) ++ (',' :: ds)), tail) := by
      rw [splitFirst]
      rw [if_neg (by
        have hT : startsWithL (('+' :: cs) ++ ((',' :: ds) ++ ((' ' :: '@' :: '@' :: []) ++ tail)))
            ('@' :: '@' :: []) = false := by
          rw [List.cons_append]
          exact startsWithL_cons_ne '+' '@' _ _ (by decide)
        simp [startsWithL, hT])]
      rw [hf2]
    have hf1 : splitFirst ((',' :: bs)
        ++ (' ' :: (('+' :: cs) ++ ((',' :: ds) ++ ((' ' :: '@' :: '@' :: []) ++ tail)))))
        (' ' :: '@' :: '@' :: [])
        = some ((',' :: bs) ++ (' ' :: (('+' :: cs) ++ (',' :: ds))), tail) := by
      rw [splitFirst_append_left _ _ _ _
        (mem_cons_digits_beq ',' bs ' ' (by decide) hdB (by decide)), hf1sp]
      simp
    have hf0 : splitFirst (('-' :: as) ++ ((',' :: bs)
        ++ (' ' :: (('+' :: cs) ++ ((',' :: ds) ++ ((' ' :: '@' :: '@' :: []) ++ tail))))))
        (' ' :: '@' :: '@' :: [])
        = some (('-' :: as) ++ ((',' :: bs) ++ (' ' :: (('+' :: cs) ++ (',' :: ds)))), tail) := by
      rw [splitFirst_append_left _ _ _ _
        (mem_cons_digits_beq '-' as ' ' (by decide) hdA (by decide)), hf1]
      simp
    rw [hf0]
    dsimp only
    have hw0 : splitWhen goIsSpace ((',' :: ds) : List Char) = [(',' :: ds)] :=
      splitWhen_no_sep _ _ (mem_cons_digits_space ',' ds (by decide) hdD)
    have hwZ : splitWhen goIsSpace (('+' :: cs) ++ (',' :: ds))
        = (('+' :: cs) ++ (',' :: ds)) :: [] :=
      splitWhen_append_left goIsSpace ('+' :: cs) (',' :: ds)
        (mem_cons_digits_space '+' cs (by decide) hdC) (',' :: ds) [] hw0
    have hwsp : splitWhen goIsSpace (' ' :: (('+' :: cs) ++ (',' :: ds)))
        = [] :: ((('+' :: cs) ++ (',' :: ds)) :: []) := by
      rw [splitWhen, if_pos (by decide), hwZ]
    have hw1 : splitWhen goIsSpace ((',' :: bs) ++ (' ' :: (('+' :: cs) ++ (',' :: ds))))
        = ((',' :: bs) ++ []) :: ((('+' :: cs) ++ (',' :: ds)) :: []) :=
      splitWhen_append_left goIsSpace (',' :: bs) _
        (mem_cons_digits_space ',' bs (by decide) hdB) [] _ hwsp
    have hw2 : splitWhen goIsSpace (('-' :: as)
        ++ ((',' :: bs) ++ (' ' :: (('+' :: cs) ++ (',' :: ds)))))
        = (('-' :: as) ++ ((',' :: bs) ++ [])) :: ((('+' :: cs) ++ (',' :: ds)) :: []) :=
      splitWhen_append_left goIsSpace ('-' :: as) _
        (mem_cons_digits_space '-' as (by decide) hdA) _ _ hw1
    have hgf : goFields (('-' :: as) ++ ((',' :: bs) ++ (' ' :: (('+' :: cs) ++ (',' :: ds)))))
        = ['-' :: (as ++ (',' :: bs)), '+' :: (cs ++ (',' :: ds))] := by
      rw [goFields, hw2]
      simp
    rw [hgf]
    dsimp only [List.foldl]
    rw [applyRange_minus, applyRange_plus]
    rw [parseRange_comma as bs hneA hdA hbA hneB hdB hbB,
        parseRange_comma cs ds hneC hdC hbC hneD hdD hbD]
  · rw [parseHunkHeader]
    dsimp only
    rw [trimPrefixL_append, splitN2]
    have hg3 : splitFirst ((' ' :: '@' :: '@' :: []) ++ tail) (' ' :: '@' :: '@' :: [])
        = some ([], tail) := splitFirst_sep ' ' ('@' :: '@' :: []) tail
    have hg2 : splitFirst (('+' :: cs) ++ ((' ' :: '@' :: '@' :: []) ++ tail))
        (' ' :: '@' :: '@' :: []) = some (('+' :: cs), tail) := by
      rw [splitFirst_append_left _ _ _ _
        (mem_cons_digits_beq '+' cs ' ' (by decide) hdC (by decide)), hg3]
      simp
    have hg1sp : splitFirst (' ' :: (('+' :: cs) ++ ((' ' :: '@' :: '@' :: []) ++ tail)))
        (' ' :: '@' :: '@' :: []) = some (' ' :: ('+' :: cs), tail) := by
      rw [splitFirst]
      rw [if_neg (by
        have hT : startsWithL (('+' :: cs) ++ ((' ' :: '@' :: '@' :: []) ++ tail))
            ('@' :: '@' :: []) = false := by
          rw [List.cons_append]
          exact startsWithL_cons_ne '+' '@' _ _ (by decide)
        simp [startsWithL, hT])]
      rw [hg2]
    have hg0 : splitFirst (('-' :: as) ++ (' ' :: (('+' :: cs) ++ ((' ' :: '@' :: '@' :: []) ++ tail))))
        (' ' :: '@' :: '@' :: [])
        = some (('-' :: as) ++ (' ' :: ('+' :: cs)), tail) := by
      rw [splitFirst_append_left _ _ _ _
        (mem_cons_digits_beq '-' as ' ' (by decide) hdA (by decide)), hg1sp]
      simp
    rw [hg0]
    dsimp only
    have hv0 : splitWhen goIsSpace (('+' :: cs) : List Char) = [('+' :: cs)] :=
      splitWhen_no_sep _ _ (mem_cons_digits_space '+' cs (by decide) hdC)
    have hvsp : splitWhen goIsSpace (' ' :: ('+' :: cs)) = [] :: (('+' :: cs) :: []) := by
      rw [splitWhen, if_pos (by decide), hv0]
    have hv1 : splitWhen goIsSpace (('-' :: as) ++ (' ' :: ('+' :: cs)))
        = (('-' :: as) ++ []) :: (('+' :: cs) :: []) :=
      splitWhen_append_left goIsSpace ('-' :: as) _
        (mem_cons_digits_space '-' as (by decide) hdA) [] _ hvsp
    have hgf2 : goFields (('-' :: as) ++ (' ' :: ('+' :: cs)))
        = ['-' :: as, '+' :: cs] := by
      rw [goFields, hv1]
      simp
    rw [hgf2]
    dsimp only [List.foldl]
    rw [applyRange_minus, applyRange_plus]
    rw [parseRange_nocomma as hneA hdA hbA, parseRange_nocomma cs hneC hdC hbC]
  · -- old length omitted, new length present: @@ -a +c,d @@
    rw [parseHunkHeader]
    dsimp only
    rw [trimPrefixL_append, splitN2]
    have hm4 : splitFirst ((' ' :: '@' :: '@' :: []) ++ tail) (' ' :: '@' :: '@' :: [])
        = some ([], tail) := splitFirst_sep ' ' ('@' :: '@' :: []) tail
    have hm3 : splitFirst ((',' :: ds) ++ ((' ' :: '@' :: '@' :: []) ++ tail))
        (' ' :: '@' :: '@' :: []) = some ((',' :: ds), tail) := by
      rw [splitFirst_append_left _ _ _ _
        (mem_cons_digits_beq ',' ds ' ' (by decide) hdD (by decide)), hm4]
      simp
    have hm2 : splitFirst (('+' :: cs) ++ ((',' :: ds) ++ ((' ' :: '@' :: '@' :: []) ++ tail)))
        (' ' :: '@' :: '@' :: []) = some (('+' :: cs) ++ (',' :: ds), tail) := by
      rw [splitFirst_append_left _ _ _ _
        (mem_cons_digits_beq '+' cs ' ' (by decide) hdC (by decide)), hm3]
      simp
    have hm1sp : splitFirst
        (' ' :: (('+' :: cs) ++ ((',' :: ds) ++ ((' ' :: '@' :: '@' :: []) ++ tail))))
        (' ' :: '@' :: '@' :: [])
        = some (' ' :: (('+' :: cs) ++ (',' :: ds)), tail) := by
      rw [splitFirst]
      rw [if_neg (by
        have hT : startsWithL (('+' :: cs) ++ ((',' :: ds) ++ ((' ' :: '@' :: '@' :: []) ++ tail)))
            ('@' :: '@' :: []) = false := by
          rw [List.cons_append]
          exact startsWithL_cons_ne '+' '@' _ _ (by decide)
        simp [startsWithL, hT])]
      rw [hm2]
    have hm0 : splitFirst (('-' :: as)
        ++ (' ' :: (('+' :: cs) ++ ((',' :: ds) ++ ((' ' :: '@' :: '@' :: []) ++ tail)))))
        (' ' :: '@' :: '@' :: [])
        = some (('-' :: as) ++ (' ' :: (('+' :: cs) ++ (',' :: ds))), tail) := by
      rw [splitFirst_append_left _ _ _ _
        (mem_cons_digits_beq '-' as ' ' (by decide) hdA (by decide)), hm1sp]
      simp
    rw [hm0]
    dsimp only
    have hy0 : splitWhen goIsSpace ((',' :: ds) : List Char) = [(',' :: ds)] :=
      splitWhen_no_sep _ _ (mem_cons_digits_space ',' ds (by decide) hdD)
    have hyZ : splitWhen goIsSpace (('+' :: cs) ++ (',' :: ds))
        = (('+' :: cs) ++ (',' :: ds)) :: [] :=
      splitWhen_append_left goIsSpace ('+' :: cs) (',' :: ds)
        (mem_cons_digits_space '+' cs (by decide) hdC) (',' :: ds) [] hy0
    have hysp : splitWhen goIsSpace (' ' :: (('+' :: cs) ++ (',' :: ds)))
        = [] :: ((('+' :: cs) ++ (',' :: ds)) :: []) := by
      rw [splitWhen, if_pos (by decide), hyZ]
    have hy1 : splitWhen goIsSpace (('-' :: as) ++ (' ' :: (('+' :: cs) ++ (',' :: ds))))
        = (('-' :: as) ++ []) :: ((('+' :: cs) ++ (',' :: ds)) :: []) :=
      splitWhen_append_left goIsSpace ('-' :: as) _
        (mem_cons_digits_space '-' as (by decide) hdA) [] _ hysp
    have hgf3 : goFields (('-' :: as) ++ (' ' :: (('+' :: cs) ++ (',' :: ds))))
        = ['-' :: as, '+' :: (cs ++ (',' :: ds))] := by
      rw [goFields, hy1]
      simp
    rw [hgf3]
    dsimp only [List.foldl]
    rw [applyRange_minus, applyRange_plus]
    rw [parseRange_nocomma as hneA hdA hbA,
        parseRange_comma cs ds hneC hdC hbC hneD hdD hbD]
  · -- old length present, new length omitted: @@ -a,b +c @@
    rw [parseHunkHeader]
    dsimp only
    rw [trimPrefixL_append, splitN2]
    have hn3 : splitFirst ((' ' :: '@' :: '@' :: []) ++ tail) (' ' :: '@' :: '@' :: [])
        = some ([], tail) := splitFirst_sep ' ' ('@' :: '@' :: []) tail
    have hn2 : splitFirst (('+' :: cs) ++ ((' ' :: '@' :: '@' :: []) ++ tail))
        (' ' :: '@' :: '@' :: []) = some (('+' :: cs), tail) := by
      rw [splitFirst_append_left _ _ _ _
        (mem_cons_digits_beq '+' cs ' ' (by decide) hdC (by decide)), hn3]
      simp
    have hn1sp : splitFirst (' ' :: (('+' :: cs) ++ ((' ' :: '@' :: '@' :: []) ++ tail)))
        (' ' :: '@' :: '@' :: []) = some (' ' :: ('+' :: cs), tail) := by
      rw [splitFirst]
      rw [if_neg (by
        have hT : startsWithL (('+' :: cs) ++ ((' ' :: '@' :: '@' :: []) ++ tail))
            ('@' :: '@' :: []) = false := by
          rw [List.cons_append]
          exact startsWithL_cons_ne '+' '@' _ _ (by decide)
        simp [startsWithL, hT])]
      rw [hn2]
    have hn1 : splitFirst ((',' :: bs) ++ (' ' :: (('+' :: cs) ++ ((' ' :: '@' :: '@' :: []) ++ tail))))
        (' ' :: '@' :: '@' :: []) = some ((',' :: bs) ++ (' ' :: ('+' :: cs)), tail) := by
      rw [splitFirst_append_left _ _ _ _
        (mem_cons_digits_beq ',' bs ' ' (by decide) hdB (by decide)), hn1sp]
      simp
    have hn0 : splitFirst (('-' :: as) ++ ((',' :: bs)
        ++ (' ' :: (('+' :: cs) ++ ((' ' :: '@' :: '@' :: []) ++ tail)))))
        (' ' :: '@' :: '@' :: [])
        = some (('-' :: as) ++ ((',' :: bs) ++ (' ' :: ('+' :: cs))), tail) := by
      rw [splitFirst_append_left _ _ _ _
        (mem_cons_digits_beq '-' as ' ' (by decide) hdA (by decide)), hn1]
      simp
    rw [hn0]
    dsimp only
    have hx0 : splitWhen goIsSpace (('+' :: cs) : List Char) = [('+' :: cs)] :=
      splitWhen_no_sep _ _ (mem_cons_digits_space '+' cs (by decide) hdC)
    have hxsp : splitWhen goIsSpace (' ' :: ('+' :: cs)) = [] :: (('+' :: cs) :: []) := by
      rw [splitWhen, if_pos (by decide), hx0]
    have hx1 : splitWhen goIsSpace ((',' :: bs) ++ (' ' :: ('+' :: cs)))
        = ((',' :: bs) ++ []) :: (('+' :: cs) :: []) :=
      splitWhen_append_left goIsSpace (',' :: bs) _
        (mem_cons_digits_space ',' bs (by decide) hdB) [] _ hxsp
    have hx2 : splitWhen goIsSpace (('-' :: as) ++ ((',' :: bs) ++ (' ' :: ('+' :: cs))))
        = (('-' :: as) ++ ((',' :: bs) ++ [])) :: (('+' :: cs) :: []) :=
      splitWhen_append_left goIsSpace ('-' :: as) _
        (mem_cons_digits_space '-' as (by decide) hdA) _ _ hx1
    have hgf4 : goFields (('-' :: as) ++ ((',' :: bs) ++ (' ' :: ('+' :: cs))))
        = ['-' :: (as ++ (',' :: bs)), '+' :: cs] := by
      rw [goFields, hx2]
      simp
    rw [hgf4]
    dsimp only [List.foldl]
    rw [applyRange_minus, applyRange_plus]
    rw [parseRange_comma as bs hneA hdA hbA hneB hdB hbB,
        parseRange_nocomma cs hneC hdC hbC]

/-- Witness for `hunk_header_parses`: the header
`@@ -10,3 +11,5 @@ func main() \x7b`, its comma-free variant
`@@ -10 +11 @@`, and the two mixed variants `@@ -10 +11,5 @@` and
`@@ -10,3 +11 @@`. -/
theorem hunk_header_parses_w :
    (("@@ ".data) ++ (('-' :: ("10".data)) ++ ((',' :: ("3".data))
        ++ (' ' :: (('+' :: ("11".data)) ++ ((',' :: ("5".data))
        ++ ((" @@".data) ++ (" func main() \x7b".data))))))))
      = ("@@ -10,3 +11,5 @@ func main() \x7b".data) ∧
    (("@@ ".data) ++ (('-' :: ("10".data))
        ++ (' ' :: (('+' :: ("11".data)) ++ ((',' :: ("5".data))
        ++ ((" @@".data) ++ ([] : List Char)))))))
      = ("@@ -10 +11,5 @@".data) ∧
    (("@@ ".data) ++ (('-' :: ("10".data)) ++ ((',' :: ("3".data))
        ++ (' ' :: (('+' :: ("11".data)) ++ ((" @@".data) ++ ([] : List Char)))))))
      = ("@@ -10,3 +11 @@".data) ∧
    parseHunkHeader (("@@ ".data) ++ (('-' :: ("10".data)) ++ ((',' :: ("3".data))
        ++ (' ' :: (('+' :: ("11".data)) ++ ((',' :: ("5".data))
        ++ ((" @@".data) ++ (" func main() \x7b".data)))))))) sampleHunk
      = { sampleHunk with
          OldStart := (digitsVal ("10".data) : Int),
          OldLines := (digitsVal ("3".data) : Int),
          NewStart := (digitsVal ("11".data) : Int),
          NewLines := (digitsVal ("5".data) : Int) } ∧
    parseHunkHeader (("@@ ".data) ++ (('-' :: ("10".data))
        ++ (' ' :: (('+' :: ("11".data)) ++ ((" @@".data) ++ ([] : List Char)))))) sampleHunk
      = { sampleHunk with
          OldStart := (digitsVal ("10".data) : Int), OldLines := 1,
          NewStart := (digitsVal ("11".data) : Int), NewLines := 1 } ∧
    parseHunkHeader (("@@ ".data) ++ (('-' :: ("10".data))
        ++ (' ' :: (('+' :: ("11".data)) ++ ((',' :: ("5".data))
        ++ ((" @@".data) ++ ([] : List Char))))))) sampleHunk
      = { sampleHunk with
          OldStart := (digitsVal ("10".data) : Int), OldLines := 1,
          NewStart := (digitsVal ("11".data) : Int),
          NewLines := (digitsVal ("5".data) : Int) } ∧
    parseHunkHeader (("@@ ".data) ++ (('-' :: ("10".data)) ++ ((',' :: ("3".data))
        ++ (' ' :: (('+' :: ("11".data)) ++ ((" @@".data) ++ ([] : List Char))))))) sampleHunk
      = { sampleHunk with
          OldStart := (digitsVal ("10".data) : Int),
          OldLines := (digitsVal ("3".data) : Int),
          NewStart := (digitsVal ("11".data) : Int), NewLines := 1 } := by
  refine ⟨by decide, by decide, by decide, ?_, ?_, ?_, ?_⟩
  · exact (hunk_header_parses ("10".data) ("3".data) ("11".data) ("5".data)
      (" func main() \x7b".data) sampleHunk
      (by decide) (by decide) (by decide) (by decide)
      (by decide) (by decide) (by decide) (by decide)
      (by decide) (by decide) (by decide) (by decide)).1
  · exact (hunk_header_parses ("10".data) ("3".data) ("11".data) ("5".data)
      ([] : List Char) sampleHunk
      (by decide) (by decide) (by decide) (by decide)
      (by decide) (by decide) (by decide) (by decide)
      (by decide) (by decide) (by decide) (by decide)).2.1
  · exact (hunk_header_parses ("10".data) ("3".data) ("11".data) ("5".data)
      ([] : List Char) sampleHunk
      (by decide) (by decide) (by decide) (by decide)
      (by decide) (by decide) (by decide) (by decide)
      (by decide) (by decide) (by decide) (by decide)).2.2.1
  · exact (hunk_header_parses ("10".data) ("3".data) ("11".data) ("5".data)
      ([] : List Char) sampleHunk
      (by decide) (by decide) (by decide) (by decide)
      (by decide) (by decide) (by decide) (by decide)
      (by decide) (by decide) (by decide) (by decide)).2.2.2

end Prview
